import Mathlib

/-!
Verification development for the LogExplainer core: a shallow embedding of
the log-line parser (`src/arrow_log_helper/parse_log.py`), the enclosure
extractor (`src/arrow_log_helper/extract_enclosure.py`), the bounded tree
scanner (`src/arrow_log_helper/search_code.py`), the offline indexer's chunk
construction (`tools/ingest.py`) and the indexed search engine
(`backend/utils/index_search.py`), with theorems checking the spec's claims
against these embeddings.

Python strings are modelled as `List Char` (`Str`); Python floats are
modelled as exact rationals `ℚ`; Python `None` becomes `Option`.  Functions
keep the source's names (leading underscores dropped where Lean dislikes
them).
-/

namespace LogExplainer

/-! ## Python string primitives (ASCII fragment used by the repository) -/

abbrev Str := List Char

/-- Whitespace characters recognised by Python's `str.split` / `\s` for the
ASCII inputs handled here. -/
def pyIsSpace (c : Char) : Bool :=
  c = ' ' || c = '\t' || c = '\n' || c = '\r' || c = Char.ofNat 11 || c = Char.ofNat 12

/-- Python `str.lower` on the ASCII fragment. -/
def pyLower (s : Str) : Str := s.map Char.toLower

/-- Python `str.lstrip()`. -/
def pyLStrip (s : Str) : Str := s.dropWhile pyIsSpace

/-- Python `str.rstrip()`. -/
def pyRStrip (s : Str) : Str := (s.reverse.dropWhile pyIsSpace).reverse

/-- Python `str.strip()`. -/
def pyStrip (s : Str) : Str := pyRStrip (pyLStrip s)

/-- Helper for `pySplitWs`: accumulates the current token (reversed). -/
def splitWsAux : Str → Str → List Str
  | [], acc => if acc.isEmpty then [] else [acc.reverse]
  | c :: rest, acc =>
    if pyIsSpace c then
      if acc.isEmpty then splitWsAux rest [] else acc.reverse :: splitWsAux rest []
    else splitWsAux rest (c :: acc)

/-- Python `str.split()` with no argument: split on whitespace runs, dropping
empty pieces. -/
def pySplitWs (s : Str) : List Str := splitWsAux s []

/-- Python `needle in hay` for strings (substring containment). -/
def pyIn (needle : Str) : Str → Bool
  | [] => needle.isEmpty
  | c :: rest => needle.isPrefixOf (c :: rest) || pyIn needle rest

/-- Python `s.startswith(p)`. -/
def pyStartsWith (p s : Str) : Bool := p.isPrefixOf s

/-- Python `s.endswith(p)`. -/
def pyEndsWith (p s : Str) : Bool := p.reverse.isPrefixOf s.reverse

/-- Collapsing `re.sub(r"\s+", " ", s)`: every maximal whitespace run becomes
one space.  The flag records whether the previous character was whitespace. -/
def collapseWsAux : Bool → Str → Str
  | _, [] => []
  | prevSpace, c :: rest =>
    if pyIsSpace c then
      if prevSpace then collapseWsAux true rest else ' ' :: collapseWsAux true rest
    else c :: collapseWsAux false rest

/-- Embedding of `re.sub(r"\s+", " ", s)`. -/
def collapseWs (s : Str) : Str := collapseWsAux false s

/-- Python `" ".join(parts)`. -/
def pyJoinSpace : List Str → Str
  | [] => []
  | [x] => x
  | x :: y :: rest => x ++ ' ' :: pyJoinSpace (y :: rest)

/-! ## LogLineParser: embedding of `src/arrow_log_helper/parse_log.py` -/

/-- Result record of `parse_line` (the dict it builds). -/
structure ParsedRecord where
  timestamp : Option String
  host_or_serial : Option String
  process : Option String
  level : Option String
  thread : Option String
  component : Option String
  message : String
deriving Repr, DecidableEq

/-- Match of `_RE_TS = ^\d{4}-\d{2}-\d{2}T\S+` against a whole token
(prefix match, as `re.match`). -/
def matchTs : Str → Bool
  | a :: b :: c :: d :: '-' :: e :: f :: '-' :: g :: h :: 'T' :: x :: _ =>
    a.isDigit && b.isDigit && c.isDigit && d.isDigit &&
    e.isDigit && f.isDigit && g.isDigit && h.isDigit && !pyIsSpace x
  | _ => false

/-- Leftmost match of `_RE_LEVEL = <([^>])>`: returns the start index and the
captured character. -/
def findLevelAux : Nat → Str → Option (Nat × Char)
  | _, [] => none
  | i, a :: rest =>
    match a, rest with
    | '<', c :: '>' :: _ => if c = '>' then findLevelAux (i + 1) rest else some (i, c)
    | _, _ => findLevelAux (i + 1) rest

def findLevel (s : Str) : Option (Nat × Char) := findLevelAux 0 s

/-- Leftmost match of `_RE_THREAD = \[([^\]]+)\]`: returns start index, end
index (exclusive) and the captured group. -/
def findThreadAux : Nat → Str → Option (Nat × Nat × Str)
  | _, [] => none
  | i, a :: rest =>
    if a = '[' then
      let inner := rest.takeWhile (fun c => c ≠ ']')
      let after := rest.drop inner.length
      if !inner.isEmpty && after.headD ' ' = ']' then
        some (i, i + inner.length + 2, inner)
      else findThreadAux (i + 1) rest
    else findThreadAux (i + 1) rest

def findThread (s : Str) : Option (Nat × Nat × Str) := findThreadAux 0 s

/-- Splitting on the first occurrence of a separator character, Python
`s.split(sep, 1)`: returns `none` when the separator is absent. -/
def splitFirst (sep : Char) : Str → Option (Str × Str)
  | [] => none
  | c :: rest =>
    if c = sep then some ([], rest)
    else (splitFirst sep rest).map (fun p => (c :: p.1, p.2))

/-- Embedding of `parse_line` from `parse_log.py`.  The input is already a
text string (`_to_text` is the identity here). -/
def parse_line (line : String) : ParsedRecord := Id.run do
  let l := pyStrip line.data
  let empty : ParsedRecord :=
    { timestamp := none, host_or_serial := none, process := none,
      level := none, thread := none, component := none, message := "" }
  if l.isEmpty then
    return empty
  let tokens := pySplitWs l
  let mut parsed := empty
  let mut pos : Nat := 0
  -- Timestamp: leading ISO-like token (starts with year and contains 'T').
  if h : pos < tokens.length then
    let tok := tokens.get ⟨pos, h⟩
    if matchTs tok && pyIn ['T'] tok then
      parsed := { parsed with timestamp := some (String.mk tok) }
      pos := pos + 1
  -- Host/serial + process detection.
  if parsed.timestamp.isSome then
    if h : pos < tokens.length then
      parsed := { parsed with host_or_serial := some (String.mk (tokens.get ⟨pos, h⟩)) }
      pos := pos + 1
      if h2 : pos < tokens.length then
        let tok := tokens.get ⟨pos, h2⟩
        if pyEndsWith [':'] tok then
          parsed := { parsed with process := some (String.mk tok.dropLast) }
          pos := pos + 1
  else
    if h : pos + 1 < tokens.length then
      let tok1 := tokens.get ⟨pos + 1, h⟩
      if pyEndsWith [':'] tok1 then
        parsed := { parsed with
          host_or_serial := some (String.mk (tokens.getD pos []))
          process := some (String.mk tok1.dropLast) }
        pos := pos + 2
  let mut remainder := pyStrip (pyJoinSpace (tokens.drop pos))
  -- Level marker: <X>.
  match findLevel remainder with
  | some (i, c) =>
    parsed := { parsed with level := some (String.mk [c]) }
    remainder := pyStrip (remainder.take i ++ ' ' :: remainder.drop (i + 3))
  | none => pure ()
  -- Thread marker: [...].
  match findThread remainder with
  | some (i, j, grp) =>
    let g := pyStrip grp
    parsed := { parsed with thread := if g.isEmpty then none else some (String.mk g) }
    remainder := pyStrip (remainder.take i ++ ' ' :: remainder.drop j)
  | none => pure ()
  remainder := pyStrip (collapseWs remainder)
  -- Component + message: "Component: message".
  match splitFirst ':' remainder with
  | some (left, right) =>
    let component := pyStrip left
    let msg := pyStrip right
    parsed := { parsed with
      component := if component.isEmpty then none else some (String.mk component)
      message := String.mk (if msg.isEmpty then pyStrip remainder else msg) }
  | none =>
    parsed := { parsed with
      message := String.mk (if (pyStrip remainder).isEmpty then l else pyStrip remainder) }
  return parsed

/-! ## EnclosureExtractor: embedding of `src/arrow_log_helper/extract_enclosure.py`

Files are modelled as the decoded line lists `_safe_read_lines` produces
(`Option (List Str)`: `none` = path does not exist; `[]` = empty or
unreadable).  `match_line_no : Option Int` models `int(match_line_no)`
(`none` = the conversion raises).  The Python `NameError` reachable in
`_extract_leading_comment_block` (the loop variable `j` read before any
assignment) is modelled with `Except String`. -/

/-- Embedding of `_indent_width` (spaces count 1, tabs count `TAB_WIDTH = 4`). -/
def indent_width : Str → Nat
  | [] => 0
  | c :: rest =>
    if c = ' ' then 1 + indent_width rest
    else if c = '\t' then 4 + indent_width rest
    else 0

/-- Embedding of `_is_def`. -/
def is_def (line : Str) : Bool :=
  pyStartsWith "def ".data (pyLStrip line) || pyStartsWith "async def ".data (pyLStrip line)

/-- Embedding of `_is_class`. -/
def is_class (line : Str) : Bool := pyStartsWith "class ".data (pyLStrip line)

/-- Embedding of `_is_decorator`. -/
def is_decorator (line : Str) : Bool := pyStartsWith ['@'] (pyLStrip line)

/-- Consuming a literal prefix (regex literal). -/
def eatLit (lit s : Str) : Option Str :=
  if lit.isPrefixOf s then some (s.drop lit.length) else none

/-- Consuming `\s+` (at least one whitespace character). -/
def eatWs1 : Str → Option Str
  | [] => none
  | c :: rest => if pyIsSpace c then some (rest.dropWhile pyIsSpace) else none

/-- Consuming `\s*`. -/
def eatWs (s : Str) : Str := s.dropWhile pyIsSpace

def isNameStart (c : Char) : Bool := c.isAlpha || c = '_'

def isNameChar (c : Char) : Bool := c.isAlphanum || c = '_'

/-- Consuming `[A-Za-z_][A-Za-z0-9_]*`, returning the name and the rest. -/
def eatName : Str → Option (Str × Str)
  | [] => none
  | c :: rest =>
    if isNameStart c then
      let more := rest.takeWhile isNameChar
      some (c :: more, rest.drop more.length)
    else none

/-- Prefix match of `_RE_DEF_HEADER = ^\s*(async\s+def|def)\s+NAME\s*\(`. -/
def reDefHeaderMatch (line : Str) : Bool :=
  let s0 := eatWs line
  let afterGroup : Option Str :=
    (do
      let s1 ← eatLit "async".data s0
      let s2 ← eatWs1 s1
      eatLit "def".data s2) <|> eatLit "def".data s0
  match afterGroup with
  | none => false
  | some s3 =>
    match eatWs1 s3 with
    | none => false
    | some s4 =>
      match eatName s4 with
      | none => false
      | some (_, s5) => (eatWs s5).headD ' ' = '('

/-- Prefix match of `_RE_CLASS_HEADER = ^\s*class\s+NAME\s*(\(|:)\s*`. -/
def reClassHeaderMatch (line : Str) : Bool :=
  match eatLit "class".data (eatWs line) with
  | none => false
  | some s1 =>
    match eatWs1 s1 with
    | none => false
    | some s2 =>
      match eatName s2 with
      | none => false
      | some (_, s3) =>
        let c := (eatWs s3).headD ' '
        c = '(' || c = ':'

/-- Prefix match of `_RE_ASYNC_DEF = ^\s*async\s+def\s+`. -/
def reAsyncDefMatch (line : Str) : Bool :=
  (do
    let s1 ← eatLit "async".data (eatWs line)
    let s2 ← eatWs1 s1
    let s3 ← eatLit "def".data s2
    eatWs1 s3).isSome

/-- Capture of `_RE_DEF_NAME = ^\s*(?:async\s+)?def\s+([A-Za-z_][A-Za-z0-9_]*)`. -/
def reDefName (line : Str) : Option Str :=
  let s0 := eatWs line
  let s1 := ((do
    let a ← eatLit "async".data s0
    eatWs1 a)).getD s0
  match eatLit "def".data s1 with
  | none => none
  | some s2 =>
    match eatWs1 s2 with
    | none => none
    | some s3 => (eatName s3).map Prod.fst

/-- Capture of `_RE_CLASS_NAME = ^\s*class\s+([A-Za-z_][A-Za-z0-9_]*)`. -/
def reClassName (line : Str) : Option Str :=
  match eatLit "class".data (eatWs line) with
  | none => none
  | some s1 =>
    match eatWs1 s1 with
    | none => none
    | some s2 => (eatName s2).map Prod.fst

/-- Embedding of `is_header_line` (nested in `extract_enclosure`). -/
def is_header_line (line : Str) : Bool :=
  reDefHeaderMatch line || reClassHeaderMatch line

/-- First index of a substring, Python `hay.find(needle)` as an `Option`. -/
def pyFindSub (needle : Str) : Str → Option Nat
  | [] => if needle.isEmpty then some 0 else none
  | c :: rest =>
    if needle.isPrefixOf (c :: rest) then some 0
    else (pyFindSub needle rest).map (· + 1)

/-- Python `"\n".join(parts)`. -/
def joinNl : List Str → Str
  | [] => []
  | [x] => x
  | x :: y :: rest => x ++ '\n' :: joinNl (y :: rest)

/-- Decorator collection of `compute_block_bounds`: walking upward from
`k - 1` (the argument is the exclusive upper index), collecting contiguous
decorator lines with indentation at least the header's.  Returns the
decorator lines in file order and the lowest decorator index. -/
def decoLoop (lines : List Str) (base : Nat) : Nat → List Str × Option Nat
  | 0 => ([], none)
  | k + 1 =>
    let lineK := lines.getD k []
    if is_decorator lineK && decide (base ≤ indent_width lineK) then
      let (above, startAbove) := decoLoop lines base k
      (above ++ [pyRStrip lineK], some (startAbove.getD k))
    else ([], none)

/-- Forward scan of `compute_block_bounds`: `fuel` counts the remaining
indices, `k` is the current index, `e` the `end_idx` accumulated so far. -/
def endLoop (lines : List Str) (base : Nat) : Nat → Nat → Nat → Nat
  | 0, _, e => e
  | fuel + 1, k, _e =>
    let s := lines.getD k []
    if (pyStrip s).isEmpty then endLoop lines base fuel (k + 1) k
    else
      let stripped := pyLStrip s
      if pyStartsWith ['#'] stripped then endLoop lines base fuel (k + 1) k
      else
        let ind := indent_width s
        if ind ≤ base then
          let isCont := decide (0 < k) && pyEndsWith ['\\'] (pyRStrip (lines.getD (k - 1) []))
          if !isCont && (is_header_line s || (decide (ind = 0) && !pyStartsWith ['#'] stripped)) then
            _e
          else endLoop lines base fuel (k + 1) k
        else endLoop lines base fuel (k + 1) k

/-- Embedding of `compute_block_bounds` (nested in `extract_enclosure`):
returns `(start_idx, end_idx, decorator_start_idx, decorator_lines)`. -/
def compute_block_bounds (lines : List Str) (n header_idx : Nat) :
    Nat × Nat × Option Nat × List Str :=
  let base := indent_width (lines.getD header_idx [])
  let (decos, decoStart) := decoLoop lines base header_idx
  let start_idx := decoStart.getD header_idx
  let end_idx := endLoop lines base (n - (header_idx + 1)) (header_idx + 1) header_idx
  (start_idx, end_idx, decoStart, decos)

/-- Embedding of `validate_containment` (nested in `extract_enclosure`). -/
def validate_containment (start_idx end_idx match_idx : Nat) : Bool :=
  decide (start_idx ≤ match_idx) && decide (match_idx ≤ end_idx)

/-- Multi-line collection loop of `_extract_docstring`: returns the collected
docstring lines and the 1-based closing line when the closing quote is found
within the bound and the size cap. -/
def docMultiline (lines : List Str) (quote : Str) (maxSize : Nat) :
    Nat → Nat → List Str → Option (List Str × Nat)
  | 0, _, _ => none
  | fuel + 1, j, acc =>
    let nl := lines.getD j []
    if pyIn quote nl then
      match pyFindSub quote nl with
      | some idx => some ((if 0 < idx then acc ++ [nl.take idx] else acc), j + 1)
      | none => none
    else
      let acc' := acc ++ [nl]
      if maxSize < (acc'.map List.length).sum then none
      else docMultiline lines quote maxSize fuel (j + 1) acc'

/-- Body loop of `_extract_docstring`: `bound = min (end_idx + 1) n` is the
exclusive upper index of the scan. -/
def docLoop (lines : List Str) (bound headerIndent maxSize : Nat) :
    Nat → Nat → Option String × Option Nat × Option Nat
  | 0, _ => (none, none, none)
  | fuel + 1, k =>
    let line := lines.getD k []
    if line.isEmpty then docLoop lines bound headerIndent maxSize fuel (k + 1)
    else
      let stripped := pyLStrip line
      if stripped.isEmpty || pyStartsWith ['#'] stripped then
        docLoop lines bound headerIndent maxSize fuel (k + 1)
      else if indent_width line ≤ headerIndent then (none, none, none)
      else if pyStartsWith ['"', '"', '"'] stripped || pyStartsWith ['\'', '\'', '\''] stripped then
        let quote := stripped.take 3
        let oneLine : Bool := pyEndsWith quote stripped && decide (6 < stripped.length)
        let oneLineDoc := (stripped.drop 3).take (stripped.length - 6)
        if oneLine && decide (oneLineDoc.length ≤ maxSize) then
          (some (String.mk oneLineDoc), some (k + 1), some (k + 1))
        else
          match docMultiline lines quote maxSize (bound - (k + 1)) (k + 1) [stripped.drop 3] with
          | some (dl, endL) =>
            let t := pyStrip (joinNl dl)
            if t.isEmpty then (none, none, none)
            else (some (String.mk t), some (k + 1), some endL)
          | none => (none, none, none)
      else (none, none, none)

/-- Embedding of `_extract_docstring` (the unused `start_idx` parameter of the
source is dropped). -/
def extract_docstring (lines : List Str) (end_idx header_idx : Nat) :
    Option String × Option Nat × Option Nat :=
  let headerIndent :=
    if header_idx < lines.length then indent_width (lines.getD header_idx []) else 0
  let bound := min (end_idx + 1) lines.length
  docLoop lines bound headerIndent (16 * 1024) (bound - (header_idx + 1)) (header_idx + 1)

/-- Inner upward loop of `_extract_leading_comment_block`'s multi-line
triple-quote collection: returns the collected non-decorator lines in
ascending file order, whether the opening quote was found, and the loop
index at the break. -/
def lcbInner (lines : List Str) (quote : Str) : Nat → Nat → List Str × Bool × Option Nat
  | 0, _ => ([], false, none)
  | cnt + 1, j =>
    let pl := lines.getD j []
    if is_decorator pl then lcbInner lines quote cnt (j - 1)
    else if pyIn quote pl then ([pl], true, some j)
    else
      let (asc, fnd, jb) := lcbInner lines quote cnt (j - 1)
      (asc ++ [pl], fnd, jb)

/-- Mutable state of `_extract_leading_comment_block`'s outer loop.  `jDef`
records whether the inner loop variable `j` has ever been assigned: reading
it unassigned raises `NameError` in the source. -/
structure LcbState where
  commentLines : List Str
  startIdx : Option Nat
  endIdx : Option Nat
  blankGap : Nat
  jDef : Bool

/-- Outer upward loop of `_extract_leading_comment_block` (max_window 25,
max_blank_gap 1). -/
def lcbOuter (lines : List Str) : Nat → Nat → LcbState → Except String LcbState
  | 0, _, st => .ok st
  | cnt + 1, k, st =>
    let line := lines.getD k []
    let stripped := pyLStrip line
    if stripped.isEmpty then
      if 1 < st.blankGap + 1 then .ok st
      else lcbOuter lines cnt (k - 1) { st with blankGap := st.blankGap + 1 }
    else if is_decorator line then
      lcbOuter lines cnt (k - 1) { st with blankGap := 0 }
    else
      let st := { st with blankGap := 0 }
      if pyStartsWith ['#'] stripped then
        lcbOuter lines cnt (k - 1) { st with
          commentLines := line :: st.commentLines
          endIdx := if st.endIdx.isNone then some k else st.endIdx
          startIdx := some k }
      else if pyStartsWith ['"', '"', '"'] stripped || pyStartsWith ['\'', '\'', '\''] stripped then
        let quote := stripped.take 3
        if pyEndsWith quote stripped && decide (6 < stripped.length) then
          lcbOuter lines cnt (k - 1) { st with
            commentLines := line :: st.commentLines
            endIdx := if st.endIdx.isNone then some k else st.endIdx
            startIdx := some k }
        else
          let icnt := min k 24
          let (asc, fnd, jb) := lcbInner lines quote icnt (k - 1)
          let st' := { st with
            commentLines := (asc ++ [line]) ++ st.commentLines
            endIdx := if st.endIdx.isNone then some k else st.endIdx }
          if fnd then
            lcbOuter lines cnt (k - 1) { st' with startIdx := some (jb.getD 0), jDef := true }
          else if st.jDef || decide (0 < icnt) then
            lcbOuter lines cnt (k - 1) { st' with startIdx := some k, jDef := true }
          else
            .error "NameError: local variable j referenced before assignment"
      else .ok st

/-- Embedding of `_extract_leading_comment_block` (returns the comment block
and 1-based start/end lines, or the propagated `NameError`). -/
def extract_leading_comment_block (lines : List Str) (def_line_no : Nat) :
    Except String (Option String × Option Nat × Option Nat) := do
  let def_idx := def_line_no - 1
  if def_line_no ≤ 1 then return (none, none, none)
  let st0 : LcbState :=
    { commentLines := [], startIdx := none, endIdx := none, blankGap := 0, jDef := false }
  let st ← lcbOuter lines (min def_idx 25) (def_idx - 1) st0
  if st.commentLines.isEmpty then return (none, none, none)
  return (some (String.mk (joinNl st.commentLines)),
    st.startIdx.map (· + 1), st.endIdx.map (· + 1))

deriving instance DecidableEq for Except

/-- Result record (the `out` dict of `extract_enclosure`). -/
structure EnclosureResult where
  path : String
  enclosure_type : String
  name : Option String
  start_line : Option Int
  end_line : Option Int
  block : String
  decorator_lines : List String
  def_line_text : Option String
  decorator_start_line : Option Int
  def_line_no : Option Int
  enclosure_contains_match : Bool
  docstring_text : Option String
  docstring_start_line : Option Nat
  docstring_end_line : Option Nat
  leading_comment_block : Option String
  leading_comment_start_line : Option Nat
  leading_comment_end_line : Option Nat
  notes : Option String
deriving Repr, DecidableEq, Inhabited

/-- Clamping of `int(match_line_no) - 1` into `[0, n - 1]` exactly as the
source performs it (`none` models a value `int()` raises on, giving `i = 0`). -/
def clampLine (m : Option Int) (n : Nat) : Nat :=
  match m with
  | none => 0
  | some mv =>
    let i := mv - 1
    if i < 0 then 0 else if (n : Int) ≤ i then n - 1 else i.toNat

/-- Candidate loop of `extract_enclosure`: tries each upward header candidate,
accepting the first whose computed block bounds contain the (clamped) match
index `i`; falls back to the module-level context window. -/
def tryCandidates (path : String) (lines : List Str) (n i : Nat) (cf : Int)
    (out0 : EnclosureResult) : List Nat → Except String EnclosureResult
  | [] =>
    let lo : Nat := ((i : Int) - cf).toNat
    let hi : Nat := if (n : Int) ≤ (i : Int) + cf then n - 1 else ((i : Int) + cf).toNat
    .ok { out0 with
      enclosure_type := "module"
      name := none
      start_line := none
      end_line := none
      block := String.mk (joinNl ((lines.drop lo).take (hi + 1 - lo)))
      enclosure_contains_match := false
      notes := some "No enclosing def/class found; returning module-level context window." }
  | header_idx :: rest =>
    let header_line := lines.getD header_idx []
    let isAsync := reAsyncDefMatch header_line
    let isDefOnly := is_def header_line && !isAsync
    let isClassH := is_class header_line
    if isDefOnly || isAsync then
      let (start_idx, end_idx, decorator_start_idx, decorator_lines) :=
        compute_block_bounds lines n header_idx
      if validate_containment start_idx end_idx i then
        let (ds, dss, dse) := extract_docstring lines end_idx header_idx
        match extract_leading_comment_block lines (header_idx + 1) with
        | .error e => .error e
        | .ok (cb, cs, ce) =>
          .ok { out0 with
          enclosure_type := if isAsync then "async_def" else "def"
          name := (reDefName header_line).map String.mk
          start_line := some ((start_idx : Int) + 1)
          end_line := some ((end_idx : Int) + 1)
          block := String.mk (joinNl ((lines.drop start_idx).take (end_idx + 1 - start_idx)))
          decorator_lines := decorator_lines.map String.mk
          def_line_text := some (String.mk (pyStrip header_line))
          def_line_no := some ((header_idx : Int) + 1)
          decorator_start_line := decorator_start_idx.map (fun d => (d : Int) + 1)
          enclosure_contains_match := true
          docstring_text := ds
          docstring_start_line := dss
          docstring_end_line := dse
          leading_comment_block := cb
          leading_comment_start_line := cs
          leading_comment_end_line := ce }
      else tryCandidates path lines n i cf out0 rest
    else if isClassH then
      let (start_idx, end_idx, decorator_start_idx, decorator_lines) :=
        compute_block_bounds lines n header_idx
      if validate_containment start_idx end_idx i then
        let (ds, dss, dse) := extract_docstring lines end_idx header_idx
        match extract_leading_comment_block lines (header_idx + 1) with
        | .error e => .error e
        | .ok (cb, cs, ce) =>
          .ok { out0 with
          enclosure_type := "class"
          name := (reClassName header_line).map String.mk
          start_line := some ((start_idx : Int) + 1)
          end_line := some ((end_idx : Int) + 1)
          block := String.mk (joinNl ((lines.drop start_idx).take (end_idx + 1 - start_idx)))
          decorator_lines := decorator_lines.map String.mk
          def_line_text := some (String.mk (pyStrip header_line))
          def_line_no := some ((header_idx : Int) + 1)
          decorator_start_line := decorator_start_idx.map (fun d => (d : Int) + 1)
          enclosure_contains_match := true
          docstring_text := ds
          docstring_start_line := dss
          docstring_end_line := dse
          leading_comment_block := cb
          leading_comment_start_line := cs
          leading_comment_end_line := ce }
      else tryCandidates path lines n i cf out0 rest
    else tryCandidates path lines n i cf out0 rest

/-- Initial `out` dict of `extract_enclosure`. -/
def enclosureOut0 (path : String) : EnclosureResult :=
  { path := path, enclosure_type := "none", name := none,
    start_line := some 1, end_line := some 1, block := "", decorator_lines := [],
    def_line_text := none, decorator_start_line := none, def_line_no := none,
    enclosure_contains_match := false, docstring_text := none,
    docstring_start_line := none, docstring_end_line := none,
    leading_comment_block := none, leading_comment_start_line := none,
    leading_comment_end_line := none, notes := none }

/-- Embedding of `extract_enclosure`.  `file` is the filesystem content at
`path`: `none` for a missing path, otherwise the `_safe_read_lines` line
list (empty for an empty or unreadable file). -/
def extract_enclosure (path : String) :
    Option (List Str) → Option Int → Int → Except String EnclosureResult
  | none, _, _ =>
    if path = "" then .ok { enclosureOut0 path with notes := some "No path provided." }
    else .ok { enclosureOut0 path with notes := some "Path does not exist." }
  | some lines, match_line_no, context_fallback =>
    if path = "" then .ok { enclosureOut0 path with notes := some "No path provided." }
    else
      if lines.length = 0 then
        .ok { enclosureOut0 path with notes := some "Empty or unreadable file." }
      else
        tryCandidates path lines lines.length (clampLine match_line_no lines.length)
          context_fallback (enclosureOut0 path)
          (((List.range (clampLine match_line_no lines.length + 1)).reverse).filter
            (fun j => is_header_line (lines.getD j [])))

/-! ## BoundedTreeScanner: embedding of `src/arrow_log_helper/search_code.py`

The filesystem is modelled as a tree of entries carrying the flags the
walker inspects (`os.path.islink`, `os.stat` success, `os.path.isfile`,
size) and, for files, the decoded line list `iter_lines` would produce and
whether `open` succeeds.  `time.time()` readings are modelled by a clock
oracle `clock : Nat → ℚ` consumed once per `_elapsed()` call.  Python floats
(scores, seconds) are modelled as exact rationals. -/

/-- Mutable stats dict created by `new_scan_stats`. -/
structure ScanStats where
  files_scanned : Nat
  files_skipped_excluded_dir : Nat
  files_skipped_symlink : Nat
  files_skipped_too_big : Nat
  files_skipped_unreadable : Nat
  hits_found : Nat
  elapsed_seconds : ℚ
  stopped_reason : Option String
deriving Repr, DecidableEq

def new_scan_stats : ScanStats :=
  { files_scanned := 0, files_skipped_excluded_dir := 0, files_skipped_symlink := 0,
    files_skipped_too_big := 0, files_skipped_unreadable := 0, hits_found := 0,
    elapsed_seconds := 0, stopped_reason := none }

/-- On-disk file as the scanner sees it: `readable` is whether `open(path,
"rb")` succeeds, `lines` the decoded, newline-stripped lines. -/
structure PyFile where
  path : String
  readable : Bool
  lines : List String
deriving Repr, DecidableEq

/-- Filesystem entry for the walker. -/
inductive FsEntry where
  | file (name : String) (isLink statOk isFile : Bool) (size : Nat) (readable : Bool)
      (lines : List String)
  | dir (name : String) (isLink : Bool) (entries : List FsEntry)
deriving Repr

/-- One outcome per directory entry visited by `safe_walk_files`: tracked
skips update a `files_skipped_*` counter, `yieldFile` hands a file to the
scanning pass, the `kept`/`drop` outcomes update nothing (kept directories,
non-regular files and extension mismatches are silently passed over). -/
inductive WalkEv where
  | skipExcludedDir
  | skipSymlinkDir
  | keptDir
  | skipSymlinkFile
  | skipStatFail
  | dropNotFile
  | skipTooBig
  | dropExt
  | yieldFile (f : PyFile)
deriving Repr, DecidableEq

def isDirEntry : FsEntry → Bool
  | .dir .. => true
  | .file .. => false

/-- Directory filtering of `safe_walk_files` (exclusion by name, symlink
skip), one event per directory name. -/
def dirEvent (exclude : List String) (follow : Bool) : FsEntry → List WalkEv
  | .dir name isLink _ =>
    if exclude.contains name then [.skipExcludedDir]
    else if !follow && isLink then [.skipSymlinkDir]
    else [.keptDir]
  | .file .. => []

/-- Whether a directory entry survives the filtering and is descended into. -/
def dirKept (exclude : List String) (follow : Bool) : FsEntry → Bool
  | .dir name isLink _ => !(exclude.contains name) && (follow || !isLink)
  | .file .. => false

/-- Per-file checks of `safe_walk_files` in source order: symlink, `os.stat`,
`os.path.isfile`, size cap, extension filter, yield. -/
def fileEvent (follow : Bool) (maxBytes : Nat) (extsL : List Str) (dirpath : String) :
    FsEntry → List WalkEv
  | .file name isLink statOk isFile size readable lines =>
    let path := dirpath ++ "/" ++ name
    if !follow && isLink then [.skipSymlinkFile]
    else if !statOk then [.skipStatFail]
    else if !isFile then [.dropNotFile]
    else if maxBytes < size then [.skipTooBig]
    else if extsL.isEmpty || extsL.any (fun e => pyEndsWith e (pyLower path.data)) then
      [.yieldFile { path := path, readable := readable, lines := lines }]
    else [.dropExt]
  | .dir .. => []

mutual

/-- Recursive descent of `os.walk` into the kept subdirectories, in order. -/
def walkSubdirs (exclude : List String) (follow : Bool) (maxBytes : Nat) (extsL : List Str)
    (dirpath : String) (l : List FsEntry) : List WalkEv :=
  match l with
  | [] => []
  | e :: rest =>
    (match e with
      | .dir name isLink sub =>
        if dirKept exclude follow (.dir name isLink sub) then
          walkDir exclude follow maxBytes extsL (dirpath ++ "/" ++ name) sub
        else []
      | .file .. => []) ++ walkSubdirs exclude follow maxBytes extsL dirpath rest
termination_by sizeOf l
decreasing_by
  all_goals simp_wf <;> omega

/-- One `os.walk` visit: filter the directory names, process the file names,
then recurse into the kept directories (`topdown=True`). -/
def walkDir (exclude : List String) (follow : Bool) (maxBytes : Nat) (extsL : List Str)
    (dirpath : String) (entries : List FsEntry) : List WalkEv :=
  (entries.filter isDirEntry).flatMap (dirEvent exclude follow) ++
  (entries.filter (fun e => !isDirEntry e)).flatMap (fileEvent follow maxBytes extsL dirpath) ++
  walkSubdirs exclude follow maxBytes extsL dirpath entries
termination_by sizeOf entries + 1
decreasing_by
  all_goals simp_wf

end

/-- Embedding of `safe_walk_files` over a list of root directories (each an
existing directory with its entry list): the lazily produced stream of
walk outcomes.  The extension list is lowercased as in the source. -/
def safe_walk_files (roots : List (String × List FsEntry)) (include_exts : List String)
    (exclude_dir_names : List String) (follow_symlinks : Bool) (max_file_bytes : Nat) :
    List WalkEv :=
  let extsL := include_exts.map (fun e => pyLower e.data)
  roots.flatMap (fun r => walkDir exclude_dir_names follow_symlinks max_file_bytes extsL r.1 r.2)

/-- Match dict built by `_add_match`. -/
structure Match where
  path : String
  line_no : Nat
  line_text : String
  match_type : String
  score : ℚ
deriving Repr, DecidableEq

/-- Embedding of `match_line`. -/
def match_line (line_text key : Str) (case_insensitive : Bool) : Bool :=
  if key.isEmpty then false
  else if case_insensitive then pyIn (pyLower key) (pyLower line_text)
  else pyIn key line_text

/-- Embedding of `tokens_match`: all non-empty tokens must appear, and the
guard requires at least two tokens. -/
def tokens_match (line_text : Str) (tokens : List Str) (case_insensitive : Bool) : Bool :=
  if tokens.isEmpty || tokens.length < 2 then false
  else
    let hay := if case_insensitive then pyLower line_text else line_text
    tokens.all (fun t => t.isEmpty || pyIn (if case_insensitive then pyLower t else t) hay)

/-- Embedding of `compute_score` (pass base 1.0 / 0.8 / 0.6, component boost
0.1, capped at 1.0; floats as exact rationals). -/
def compute_score (match_type : String) (line_text : Str) (component : Option Str)
    (case_insensitive : Bool) : ℚ :=
  let base : ℚ :=
    if match_type = "exact" then 1
    else if match_type = "normalized" then 4/5
    else if match_type = "tokens" then 3/5
    else 0
  let boost : ℚ :=
    match component with
    | some c =>
      if !c.isEmpty && !line_text.isEmpty &&
          (if case_insensitive then pyIn (pyLower c) (pyLower line_text) else pyIn c line_text)
        then 1/10 else 0
    | none => 0
  let score := base + boost
  if 1 < score then 1 else score

/-- Score formula as the specification words it: pass base (1.0 exact, 0.8
normalized, 0.6 tokens) plus a 0.1 boost when the line contains the component,
capped at 1.0.  Spec-side counterpart of `compute_score` for the refinement
comparison. -/
def specScore (match_type : String) (line_text : Str) (component : Option Str)
    (case_insensitive : Bool) : ℚ :=
  let base : ℚ :=
    if match_type = "exact" then 1
    else if match_type = "normalized" then 4/5
    else 3/5
  let boost : ℚ :=
    match component with
    | some c =>
      if !c.isEmpty && !line_text.isEmpty &&
          (if case_insensitive then pyIn (pyLower c) (pyLower line_text) else pyIn c line_text)
        then 1/10 else 0
    | none => 0
  min 1 (base + boost)

/-- Embedding of `_add_match`: dedup on `(path, line_no)` through the `seen`
set, append otherwise. -/
def add_match (results : List Match) (seen : List (String × Nat)) (path : String)
    (line_no : Nat) (line_text : String) (match_type : String) (score : ℚ) :
    List Match × List (String × Nat) :=
  if seen.contains (path, line_no) then (results, seen)
  else
    (results ++ [{ path := path, line_no := line_no, line_text := line_text,
                   match_type := match_type, score := score }],
     seen ++ [(path, line_no)])

/-- Progress callback: receives the snapshot dict, may return a mutated dict
and may raise (`Bool`); the scan discards both. -/
abbrev ProgressCb := ScanStats → ScanStats × Bool

/-- Caller arguments of `search_in_roots`. -/
structure SearchArgs where
  key_exact : String
  key_normalized : String
  tokens : List String
  component : Option String
  include_exts : List String
  exclude_dir_names : List String
  case_insensitive : Bool
  max_results : Int
  follow_symlinks : Bool
  max_file_bytes : Nat
  max_seconds : Option ℚ
  max_files_scanned : Option Int
  progress_every_n_files : Int
  clock : Nat → ℚ

/-- `max_results` after the source's `int()` coercion and `< 1 → 1` clamp. -/
def mrNat (args : SearchArgs) : Nat :=
  if args.max_results < 1 then 1 else args.max_results.toNat

/-- `progress_every_n_files` after coercion and clamping. -/
def pevN (args : SearchArgs) : Nat :=
  if args.progress_every_n_files < 1 then 1 else args.progress_every_n_files.toNat

/-- Scan-local mutable state: the stats dict, the result and seen lists, the
`files_pass1` cache, the clock-call counter, and the list of snapshots
handed to the progress callback. -/
structure ScanSt where
  stats : ScanStats
  results : List Match
  seen : List (String × Nat)
  files1 : List PyFile
  ticks : Nat
  snaps : List ScanStats
deriving Repr

/-- One `_elapsed()` call: stores the next clock reading. -/
def elapsedStep (args : SearchArgs) (st : ScanSt) : ScanSt :=
  { st with ticks := st.ticks + 1
            stats := { st.stats with elapsed_seconds := args.clock st.ticks } }

/-- Embedding of `_maybe_progress`: updates `elapsed_seconds`, and when a
callback is installed and due, passes it a snapshot copy (`dict(stats)`),
discarding whatever the callback returns or raises. -/
def maybe_progress (cb : Option ProgressCb) (args : SearchArgs) (force : Bool)
    (st : ScanSt) : ScanSt :=
  let st := elapsedStep args st
  match cb with
  | none => st
  | some f =>
    if force || st.stats.files_scanned % pevN args == 0 then
      let snap := st.stats
      let _ := f snap
      { st with snaps := st.snaps ++ [snap] }
    else st

def setReason (st : ScanSt) (r : String) : ScanSt :=
  { st with stats := { st.stats with stopped_reason := some r } }

/-- Embedding of `_should_stop_before_file` (checks in source order:
`max_seconds`, `max_files_scanned`, result budget). -/
def should_stop (args : SearchArgs) (st : ScanSt) : Bool × ScanSt :=
  let st := elapsedStep args st
  let overTime :=
    match args.max_seconds with
    | some ms => decide (ms ≤ st.stats.elapsed_seconds)
    | none => false
  if overTime then (true, setReason st "max_seconds")
  else
    let overFiles :=
      match args.max_files_scanned with
      | some mf => decide (mf ≤ (st.stats.files_scanned : Int))
      | none => false
    if overFiles then (true, setReason st "max_files")
    else if mrNat args ≤ st.results.length then (true, setReason st "max_results")
    else (false, st)

/-- Lines of a file with 1-based numbering, as `iter_lines` yields them. -/
def enum1 (l : List String) : List (Nat × String) := l.enum.map (fun p => (p.1 + 1, p.2))

/-- Line test for one pass, as `run_pass` dispatches it. -/
def passLineOk (match_type : String) (key : String) (tokens : List String)
    (case_insensitive : Bool) (text : String) : Bool :=
  if match_type = "exact" || match_type = "normalized" then
    match_line text.data key.data case_insensitive
  else if match_type = "tokens" then
    tokens_match text.data (tokens.map String.data) case_insensitive
  else false

/-- Inner line loop of `run_pass`: match, score, dedup-append, count the hit,
and stop the file with `stopped_reason = "max_results"` the moment the
result count reaches the budget. -/
def lineLoop (match_type : String) (key : String) (tokens : List String)
    (args : SearchArgs) (path : String) : List (Nat × String) → ScanSt → ScanSt
  | [], st => st
  | (ln, text) :: rest, st =>
    if !passLineOk match_type key tokens args.case_insensitive text then
      lineLoop match_type key tokens args path rest st
    else
      let score := compute_score match_type text.data (args.component.map String.data)
        args.case_insensitive
      let (results', seen') := add_match st.results st.seen path ln text match_type score
      let added := st.results.length < results'.length
      let st :=
        { st with results := results'
                  seen := seen'
                  stats := if added then { st.stats with hits_found := st.stats.hits_found + 1 }
                           else st.stats }
      if mrNat args ≤ st.results.length then setReason st "max_results"
      else lineLoop match_type key tokens args path rest st

/-- Per-file body of `run_pass`: `iter_lines` (a failed open counts one
`files_skipped_unreadable` and yields nothing), the line loop, then
`files_scanned += 1` and a non-forced progress call. -/
def processFile (cb : Option ProgressCb) (match_type : String) (key : String)
    (tokens : List String) (args : SearchArgs) (st : ScanSt) (f : PyFile) : ScanSt :=
  let st :=
    if f.readable then lineLoop match_type key tokens args f.path (enum1 f.lines) st
    else { st with stats :=
      { st.stats with files_skipped_unreadable := st.stats.files_skipped_unreadable + 1 } }
  let st := { st with stats := { st.stats with files_scanned := st.stats.files_scanned + 1 } }
  maybe_progress cb args false st

/-- Stats mutation a walker outcome performs when the scanning pass consumes
it (the generator body of `safe_walk_files`). -/
def applyWalkSkip (st : ScanSt) (ev : WalkEv) : ScanSt :=
  match ev with
  | .skipExcludedDir => { st with stats :=
      { st.stats with files_skipped_excluded_dir := st.stats.files_skipped_excluded_dir + 1 } }
  | .skipSymlinkDir | .skipSymlinkFile => { st with stats :=
      { st.stats with files_skipped_symlink := st.stats.files_skipped_symlink + 1 } }
  | .skipStatFail => { st with stats :=
      { st.stats with files_skipped_unreadable := st.stats.files_skipped_unreadable + 1 } }
  | .skipTooBig => { st with stats :=
      { st.stats with files_skipped_too_big := st.stats.files_skipped_too_big + 1 } }
  | .keptDir | .dropNotFile | .dropExt | .yieldFile _ => st

/-- Pass 1 of `run_pass`, driven by the lazy walker: skip outcomes update
stats as the generator is pulled; each yielded file is first appended to
`files_pass1`, then the budget re-check runs, then the file is scanned.
Stopping abandons the generator, leaving later outcomes unconsumed. -/
def runPass1 (cb : Option ProgressCb) (args : SearchArgs) :
    List WalkEv → ScanSt → ScanSt
  | [], st => st
  | ev :: rest, st =>
    match ev with
    | .yieldFile f =>
      if (should_stop args { st with files1 := st.files1 ++ [f] }).1 then
        (should_stop args { st with files1 := st.files1 ++ [f] }).2
      else
        if (processFile cb "exact" args.key_exact [] args
            (should_stop args { st with files1 := st.files1 ++ [f] }).2 f).stats.stopped_reason
            = some "max_results" then
          processFile cb "exact" args.key_exact [] args
            (should_stop args { st with files1 := st.files1 ++ [f] }).2 f
        else
          runPass1 cb args rest (processFile cb "exact" args.key_exact [] args
            (should_stop args { st with files1 := st.files1 ++ [f] }).2 f)
    | _ => runPass1 cb args rest (applyWalkSkip st ev)

/-- Passes 2 and 3 of `run_pass`, re-iterating the `files_pass1` list. -/
def runPassFiles (cb : Option ProgressCb) (match_type : String) (key : String)
    (tokens : List String) (args : SearchArgs) : List PyFile → ScanSt → ScanSt
  | [], st => st
  | f :: rest, st =>
    if (should_stop args st).1 then (should_stop args st).2
    else
      if (processFile cb match_type key tokens args (should_stop args st).2 f).stats.stopped_reason
          = some "max_results" then
        processFile cb match_type key tokens args (should_stop args st).2 f
      else
        runPassFiles cb match_type key tokens args rest
          (processFile cb match_type key tokens args (should_stop args st).2 f)

/-- Stable insertion into a list sorted by `le` (ties keep the earlier
element first), the building block of Python's stable `list.sort`. -/
def insSorted (le : α → α → Bool) (x : α) : List α → List α
  | [] => [x]
  | y :: l => if le y x then y :: insSorted le x l else x :: y :: l

/-- Stable sort by `le`, as Python's `list.sort(key=...)`. -/
def stableSort (le : α → α → Bool) (l : List α) : List α :=
  l.foldl (fun acc x => insSorted le x acc) []

/-- Comparison by the sort key `(-score, path, line_no)` of `search_in_roots`. -/
def matchKeyLe (a b : Match) : Bool :=
  if a.score = b.score then
    if a.path = b.path then decide (a.line_no ≤ b.line_no)
    else decide (a.path < b.path)
  else decide (b.score < a.score)

/-- Initial scan state. -/
def initScanSt : ScanSt :=
  { stats := new_scan_stats, results := [], seen := [], files1 := [], ticks := 0, snaps := [] }

/-- Pass 1 of `search_in_roots`: the initial forced progress call, then the
exact pass driven by the walker. -/
def scanStage1 (cb : Option ProgressCb) (args : SearchArgs)
    (roots : List (String × List FsEntry)) : ScanSt :=
  runPass1 cb args
    (safe_walk_files roots args.include_exts args.exclude_dir_names
      args.follow_symlinks args.max_file_bytes)
    (maybe_progress cb args true initScanSt)

/-- Pass 2 of `search_in_roots`: the normalized pass, run only when no stop
reason is set and the result budget is not yet filled. -/
def scanStage2 (cb : Option ProgressCb) (args : SearchArgs) (st1 : ScanSt) : ScanSt :=
  if st1.stats.stopped_reason = none ∧ st1.results.length < mrNat args then
    runPassFiles cb "normalized" args.key_normalized [] args st1.files1 st1
  else st1

/-- Pass 3 of `search_in_roots`: the tokens pass, under the same guard. -/
def scanStage3 (cb : Option ProgressCb) (args : SearchArgs) (st2 : ScanSt) : ScanSt :=
  if st2.stats.stopped_reason = none ∧ st2.results.length < mrNat args then
    runPassFiles cb "tokens" "" args.tokens args st2.files1 st2
  else st2

/-- Epilogue of `search_in_roots`: final elapsed update and forced progress
call. -/
def scanFinal (cb : Option ProgressCb) (args : SearchArgs) (st3 : ScanSt) : ScanSt :=
  maybe_progress cb args true (elapsedStep args st3)

/-- Embedding of `search_in_roots`: the three ordered passes over the walked
tree, the final forced progress call, then sort and truncate.  Returns
`(results, stats)` plus the snapshot list handed to the callback. -/
def search_in_roots (cb : Option ProgressCb) (args : SearchArgs)
    (roots : List (String × List FsEntry)) : List Match × ScanStats × List ScanStats :=
  let st4 := scanFinal cb args (scanStage3 cb args (scanStage2 cb args (scanStage1 cb args roots)))
  ((stableSort matchKeyLe st4.results).take (mrNat args), st4.stats, st4.snaps)

/-! ## OfflineIndexer: chunk identity of `tools/ingest.py`

`extract_function_chunk` builds the chunk dict, serialises it with
`json.dumps(chunk, sort_keys=True, ensure_ascii=False)`, UTF-8 encodes it and
takes `hashlib.sha256(...).hexdigest()[:16]` as `chunk_id`.  The embedding
covers the chunk record at hashing time, the canonical JSON serialisation
(Python's default separators `", "` and `": "`), UTF-8 and SHA-256. -/

/-- Structured error-message entry of a chunk. -/
structure ErrorMessage where
  message : String
  log_level : String
  source_type : String
deriving Repr, DecidableEq

/-- Chunk dict of `extract_function_chunk` at hashing time (before the
`chunk_id` key is added). -/
structure Chunk where
  file_path : String
  function_name : String
  class_name : Option String
  line_start : Nat
  line_end : Nat
  signature : Option String
  code : String
  docstring : Option String
  leading_comment : Option String
  error_messages : List ErrorMessage
  log_levels : List String
deriving Repr, DecidableEq

def hexDigitChar (n : Nat) : Char :=
  if n < 10 then Char.ofNat (48 + n) else Char.ofNat (87 + n)

/-- JSON string escaping as `json.dumps(..., ensure_ascii=False)` performs
it: quote, backslash and control characters only. -/
def jsonEscapeChar (c : Char) : Str :=
  if c = '"' then ['\\', '"']
  else if c = '\\' then ['\\', '\\']
  else if c = '\n' then ['\\', 'n']
  else if c = '\t' then ['\\', 't']
  else if c = '\r' then ['\\', 'r']
  else if c = Char.ofNat 8 then ['\\', 'b']
  else if c = Char.ofNat 12 then ['\\', 'f']
  else if c.toNat < 32 then
    ['\\', 'u', '0', '0', hexDigitChar (c.toNat / 16), hexDigitChar (c.toNat % 16)]
  else [c]

def jsonStr (s : String) : Str := '"' :: (s.data.flatMap jsonEscapeChar ++ ['"'])

def jsonOptStr : Option String → Str
  | none => "null".data
  | some s => jsonStr s

def jsonNat (n : Nat) : Str := (toString n).data

/-- Comma-space join of serialised items (Python's default separator). -/
def joinCommaSp : List Str → Str
  | [] => []
  | [x] => x
  | x :: y :: rest => x ++ ',' :: ' ' :: joinCommaSp (y :: rest)

def jsonKV (k : String) (v : Str) : Str := jsonStr k ++ ':' :: ' ' :: v

def jsonObj (kvs : List Str) : Str := '{' :: (joinCommaSp kvs ++ ['}'])

def jsonArr (vs : List Str) : Str := '[' :: (joinCommaSp vs ++ [']'])

/-- Canonical JSON of one `error_messages` entry (keys sorted). -/
def errorMessageJson (e : ErrorMessage) : Str :=
  jsonObj [jsonKV "log_level" (jsonStr e.log_level),
           jsonKV "message" (jsonStr e.message),
           jsonKV "source_type" (jsonStr e.source_type)]

/-- Canonical JSON of the chunk dict: `json.dumps(chunk, sort_keys=True,
ensure_ascii=False)` with the key order alphabetical. -/
def chunkCanonicalJson (c : Chunk) : Str :=
  jsonObj [jsonKV "class_name" (jsonOptStr c.class_name),
           jsonKV "code" (jsonStr c.code),
           jsonKV "docstring" (jsonOptStr c.docstring),
           jsonKV "error_messages" (jsonArr (c.error_messages.map errorMessageJson)),
           jsonKV "file_path" (jsonStr c.file_path),
           jsonKV "function_name" (jsonStr c.function_name),
           jsonKV "leading_comment" (jsonOptStr c.leading_comment),
           jsonKV "line_end" (jsonNat c.line_end),
           jsonKV "line_start" (jsonNat c.line_start),
           jsonKV "log_levels" (jsonArr (c.log_levels.map jsonStr)),
           jsonKV "signature" (jsonOptStr c.signature)]

/-- UTF-8 encoding of one character. -/
def utf8Char (c : Char) : List Nat :=
  let n := c.toNat
  if n < 128 then [n]
  else if n < 2048 then [192 + n / 64, 128 + n % 64]
  else if n < 65536 then [224 + n / 4096, 128 + (n / 64) % 64, 128 + n % 64]
  else [240 + n / 262144, 128 + (n / 4096) % 64, 128 + (n / 64) % 64, 128 + n % 64]

def utf8Encode (s : Str) : List Nat := s.flatMap utf8Char

/-! SHA-256 over byte lists, words as `Nat` reduced mod `2 ^ 32`. -/

def w32 (n : Nat) : Nat := n % 4294967296

def rotr32 (k x : Nat) : Nat := w32 ((x >>> k) + (x <<< (32 - k)))

def shr (k x : Nat) : Nat := x >>> k

def bigSigma0 (x : Nat) : Nat := (rotr32 2 x) ^^^ (rotr32 13 x) ^^^ (rotr32 22 x)

def bigSigma1 (x : Nat) : Nat := (rotr32 6 x) ^^^ (rotr32 11 x) ^^^ (rotr32 25 x)

def smallSigma0 (x : Nat) : Nat := (rotr32 7 x) ^^^ (rotr32 18 x) ^^^ (shr 3 x)

def smallSigma1 (x : Nat) : Nat := (rotr32 17 x) ^^^ (rotr32 19 x) ^^^ (shr 10 x)

def chFn (x y z : Nat) : Nat := (x &&& y) ^^^ ((4294967295 - w32 x) &&& z)

def majFn (x y z : Nat) : Nat := (x &&& y) ^^^ (x &&& z) ^^^ (y &&& z)

def sha256K : List Nat :=
  [1116352408, 1899447441, 3049323471, 3921009573,
   961987163, 1508970993, 2453635748, 2870763221,
   3624381080, 310598401, 607225278, 1426881987,
   1925078388, 2162078206, 2614888103, 3248222580,
   3835390401, 4022224774, 264347078, 604807628,
   770255983, 1249150122, 1555081692, 1996064986,
   2554220882, 2821834349, 2952996808, 3210313671,
   3336571891, 3584528711, 113926993, 338241895,
   666307205, 773529912, 1294757372, 1396182291,
   1695183700, 1986661051, 2177026350, 2456956037,
   2730485921, 2820302411, 3259730800, 3345764771,
   3516065817, 3600352804, 4094571909, 275423344,
   430227734, 506948616, 659060556, 883997877,
   958139571, 1322822218, 1537002063, 1747873779,
   1955562222, 2024104815, 2227730452, 2361852424,
   2428436474, 2756734187, 3204031479, 3329325298]

def sha256H0 : List Nat :=
  [1779033703, 3144134277, 1013904242, 2773480762,
   1359893119, 2600822924, 528734635, 1541459225]

/-- Message padding: append `0x80`, zeros to 56 mod 64, then the bit length
as 8 big-endian bytes. -/
def sha256pad (msg : List Nat) : List Nat :=
  let L := msg.length
  let z := (120 - ((L + 1) % 64)) % 64
  let lenBytes := (List.range 8).map (fun i => ((L * 8) >>> (8 * (7 - i))) % 256)
  msg ++ 128 :: (List.replicate z 0 ++ lenBytes)

/-- Grouping bytes into 32-bit big-endian words. -/
def toWords : List Nat → List Nat
  | b0 :: b1 :: b2 :: b3 :: rest =>
    (b0 * 16777216 + b1 * 65536 + b2 * 256 + b3) :: toWords rest
  | _ => []

/-- Message schedule: extends the 16 block words to 64. -/
def sha256schedule (ws : List Nat) : Nat → List Nat
  | 0 => ws
  | t + 1 =>
    let ws := sha256schedule ws t
    let i := ws.length
    let next := w32 (smallSigma1 (ws.getD (i - 2) 0) + ws.getD (i - 7) 0 +
      smallSigma0 (ws.getD (i - 15) 0) + ws.getD (i - 16) 0)
    ws ++ [next]

/-- One compression round. -/
def sha256round (kt wt : Nat) : List Nat → List Nat
  | [a, b, c, d, e, f, g, h] =>
    let t1 := w32 (h + bigSigma1 e + chFn e f g + kt + wt)
    let t2 := w32 (bigSigma0 a + majFn a b c)
    [w32 (t1 + t2), a, b, c, w32 (d + t1), e, f, g]
  | l => l

/-- Compression of one 16-word block into the running hash. -/
def sha256block (hs block : List Nat) : List Nat :=
  let ws := sha256schedule block 48
  let final := (List.range 64).foldl
    (fun st t => sha256round (sha256K.getD t 0) (ws.getD t 0) st) hs
  (hs.zip final).map (fun p => w32 (p.1 + p.2))

/-- Accumulator-based 16-word grouping (structural, so that concrete hashes
reduce in the kernel): `cur` holds the current chunk reversed. -/
def chunksOf16Aux : List Nat → List Nat → List (List Nat)
  | [], cur => if cur.isEmpty then [] else [cur.reverse]
  | b :: rest, cur =>
    if 15 ≤ cur.length then (cur.reverse ++ [b]) :: chunksOf16Aux rest []
    else chunksOf16Aux rest (b :: cur)

def chunksOf16 (l : List Nat) : List (List Nat) := chunksOf16Aux l []

/-- SHA-256 digest (32 bytes) of a byte list. -/
def sha256 (msg : List Nat) : List Nat :=
  let blocks := chunksOf16 (toWords (sha256pad msg))
  let hs := blocks.foldl sha256block sha256H0
  hs.flatMap (fun w => [(w >>> 24) % 256, (w >>> 16) % 256, (w >>> 8) % 256, w % 256])

/-- Lowercase hex digest of a byte list. -/
def hexDigest (bytes : List Nat) : Str :=
  bytes.flatMap (fun b => [hexDigitChar (b / 16), hexDigitChar (b % 16)])

/-- `hashlib.sha256(s.encode("utf-8")).hexdigest()` for a text string. -/
def sha256hexStr (s : Str) : Str := hexDigest (sha256 (utf8Encode s))

/-- The `chunk_id` assigned by `extract_function_chunk`: the first 16 hex
characters of the SHA-256 of the canonical JSON. -/
def extract_function_chunk_id (c : Chunk) : String :=
  String.mk ((sha256hexStr (chunkCanonicalJson c)).take 16)

/-! ## IndexedSearchEngine: embedding of `backend/utils/index_search.py`

The index artifact is modelled with chunks and an insertion-ordered
`error_index` association list; scores (Python floats) are exact rationals.
The searched strings handled here are ASCII, so `str.lower` is the ASCII
fold. -/

/-- Entry of an `error_index` value list (all keys present, as the indexer
writes them). -/
structure IndexMatchInfo where
  chunk_id : String
  original_message : String
  log_level : String
  source_type : String
deriving Repr, DecidableEq

/-- Chunk as stored in the artifact (with its `chunk_id`). -/
structure IndexedChunk where
  chunk_id : String
  file_path : String
  function_name : String
  class_name : Option String
  line_start : Nat
  line_end : Nat
  signature : Option String
  code : String
  docstring : Option String
  leading_comment : Option String
  error_messages : List ErrorMessage
deriving Repr, DecidableEq, Inhabited

/-- Artifact content `search_chunk_index` reads. -/
structure IndexData where
  chunks : List IndexedChunk
  error_index : List (String × List IndexMatchInfo)
deriving Repr

/-- Result entry of `search_chunk_index`. -/
structure SearchResult where
  error_key : String
  chunks : List IndexedChunk
  match_type : String
  score : ℚ
  matched_text : String
deriving Repr, DecidableEq

/-- Embedding of `normalize_error_message`. -/
def normalize_error_message (s : Str) : Str :=
  if s.isEmpty then []
  else collapseWs (pyStrip (pyLower s))

/-- Deduplication preserving first occurrence (Python `set` cardinality
helper). -/
def dedup (l : List String) : List String :=
  l.foldl (fun acc x => if acc.contains x then acc else acc ++ [x]) []

/-- Embedding of `_token_overlap_score` (Jaccard similarity of token sets). -/
def token_overlap_score (query_tokens key_tokens : List String) : ℚ :=
  if query_tokens.isEmpty || key_tokens.isEmpty then 0
  else
    let q := dedup query_tokens
    let k := dedup key_tokens
    let inter := (q.filter k.contains).length
    let union := (dedup (q ++ k)).length
    if union = 0 then 0 else (inter : ℚ) / (union : ℚ)

/-- Embedding of `_length_proximity_score`. -/
def length_proximity_score (query_len key_len : Nat) : ℚ :=
  if query_len = 0 || key_len = 0 then 0
  else
    let diff : ℚ := ((max query_len key_len - min query_len key_len : Nat) : ℚ)
    1 - diff / ((max query_len key_len : Nat) : ℚ)

def stopWords : List String :=
  ["a", "an", "and", "are", "as", "at", "be", "by", "for", "from",
   "has", "he", "in", "is", "it", "its", "of", "on", "that", "the",
   "to", "was", "will", "with", "get", "got", "go", "goes", "went",
   "this", "these", "they", "them", "their", "there", "then", "than",
   "have", "had", "having", "do", "does", "did", "doing",
   "can", "could", "should", "would", "may", "might", "must"]

/-- Embedding of `_filter_significant_tokens`. -/
def filter_significant_tokens (tokens : List String) : List String :=
  tokens.filter (fun t => decide (2 < t.length) && !stopWords.contains t)

/-- Python `hay.find(needle, start)` (`-1` when absent). -/
def pyFindFrom (needle hay : Str) (start : Nat) : Int :=
  match pyFindSub needle (hay.drop start) with
  | some i => (start + i : Nat)
  | none => -1

/-- Embedding of `_extract_match_excerpt` (context of 100 characters). -/
def extract_match_excerpt (query text : Str) : Str :=
  let queryLower := pyLower query
  let textLower := pyLower text
  let context := 100
  match pyFindSub queryLower textLower with
  | some pos =>
    let start := pos - min pos context
    let stop := min text.length (pos + query.length + context)
    let excerpt := (text.drop start).take (stop - start)
    let excerpt := if 0 < start then "...".data ++ excerpt else excerpt
    let excerpt := if stop < text.length then excerpt ++ "...".data else excerpt
    pyStrip excerpt
  | none =>
    let query_tokens := filter_significant_tokens ((pySplitWs queryLower).map String.mk)
    match query_tokens with
    | [] => []
    | ft :: _ =>
      match pyFindSub ft.data textLower with
      | some pos =>
        let start := pos - min pos context
        let stop := min text.length (pos + ft.length + context)
        let excerpt := (text.drop start).take (stop - start)
        let excerpt := if 0 < start then "...".data ++ excerpt else excerpt
        let excerpt := if stop < text.length then excerpt ++ "...".data else excerpt
        pyStrip excerpt
      | none => []

/-- Embedding of `_calculate_phrase_match_score`. -/
def calculate_phrase_match_score (query text : Str) : ℚ :=
  let queryLower := pyLower query
  let textLower := pyLower text
  if pyIn queryLower textLower then 1
  else
    let query_tokens := filter_significant_tokens ((pySplitWs queryLower).map String.mk)
    if query_tokens.isEmpty then 0
    else
      let matched := (query_tokens.filter (fun t => pyIn t.data textLower)).length
      let tokenRatio : ℚ := (matched : ℚ) / (query_tokens.length : ℚ)
      if tokenRatio < 1/2 then 0
      else
        let orderScore : ℚ :=
          if 2 ≤ query_tokens.length then
            let pairs := (query_tokens.zip query_tokens.tail)
            let ordered := (pairs.filter (fun p =>
              pyIn p.1.data textLower && pyIn p.2.data textLower &&
              (let pos1 := pyFindFrom p.1.data textLower 0
               let pos2 := pyFindFrom p.2.data textLower pos1.toNat
               decide (pos1 < pos2)))).length
            (ordered : ℚ) / ((query_tokens.length - 1 : Nat) : ℚ)
          else 0
        tokenRatio * (3/5) + orderScore * (2/5)

/-- Last-wins lookup of the `chunks_dict` comprehension. -/
def chunksDictFind (chunks : List IndexedChunk) (cid : String) : Option IndexedChunk :=
  (chunks.filter (fun c => c.chunk_id = cid)).getLast?

/-- Tier 1 (exact) of `search_chunk_index`: direct `error_index` lookup of
the normalized query.  Returns the results and the seen error keys. -/
def tier1Exact (error_message : Str) (idx : IndexData) (nq : String) :
    List SearchResult × List String :=
  match idx.error_index.lookup nq with
  | none => ([], [])
  | some matchList =>
    matchList.foldl
      (fun acc mi =>
        let (results, seen) := acc
        if mi.chunk_id ≠ "" then
          match chunksDictFind idx.chunks mi.chunk_id with
          | some chunk =>
            let error_key := mi.original_message
            if seen.contains error_key then (results, seen)
            else
              let matched_text :=
                if error_key ≠ "" then error_key.data
                else extract_match_excerpt error_message chunk.code.data
              (results ++ [{ error_key := error_key, chunks := [chunk],
                             match_type := "exact", score := 1,
                             matched_text := String.mk matched_text }],
               seen ++ [error_key])
          | none => (results, seen)
        else (results, seen))
      ([], [])

/-- Key comparison for Python's `sort(key=lambda x: x[1], reverse=True)`:
stable descending by score. -/
def scoredKeyGe (a b : String × ℚ × List IndexMatchInfo) : Bool :=
  decide (b.2.1 ≤ a.2.1)

/-- Tier 2 (partial) of `search_chunk_index`. -/
def tier2Partial (error_message : Str) (idx : IndexData) (nq : String)
    (results : List SearchResult) (seen : List String) :
    List SearchResult × List String :=
  if 25 ≤ results.length then (results, seen)
  else
    let query_tokens := (pySplitWs nq.data).map String.mk
    let query_len := nq.length
    let scored_keys := idx.error_index.foldl
      (fun acc kv =>
        let (error_key, match_list) := kv
        if seen.contains error_key then acc
        else if pyIn nq.data error_key.data then
          let key_tokens := (pySplitWs error_key.data).map String.mk
          let token_score := token_overlap_score query_tokens key_tokens
          let length_score := length_proximity_score query_len error_key.length
          acc ++ [(error_key, token_score * (3/5) + length_score * (2/5), match_list)]
        else acc)
      []
    let sorted := stableSort scoredKeyGe scored_keys
    (sorted.take 25).foldl
      (fun acc kv =>
        let (results, seen) := acc
        let (error_key, score, match_list) := kv
        if seen.contains error_key then (results, seen)
        else
          let seen := seen ++ [error_key]
          let chunks := match_list.foldl
            (fun cs mi =>
              if mi.chunk_id ≠ "" then
                match chunksDictFind idx.chunks mi.chunk_id with
                | some c => cs ++ [c]
                | none => cs
              else cs)
            []
          match chunks with
          | [] => (results, seen)
          | chunk :: _ =>
            let matched_text := error_key.data
            let code_excerpt := extract_match_excerpt error_message chunk.code.data
            let matched_text :=
              if !code_excerpt.isEmpty && matched_text.length < code_excerpt.length then
                code_excerpt
              else matched_text
            (results ++ [{ error_key := error_key, chunks := chunks,
                           match_type := "partial", score := score,
                           matched_text := String.mk matched_text }],
             seen))
      (results, seen)

/-- Per-chunk score of tier 3 (error messages `×1.0`, code `×0.8`,
docstring/comment `×0.5`). -/
def tier3ChunkScore (nq : String) (chunk : IndexedChunk) : ℚ :=
  let code := pyLower chunk.code.data
  let docstring := pyLower (chunk.docstring.getD "").data
  let leading_comment := pyLower (chunk.leading_comment.getD "").data
  let error_msg_score := chunk.error_messages.foldl
    (fun best e =>
      let msg := pyLower e.message.data
      if msg.isEmpty then best
      else max best (calculate_phrase_match_score nq.data msg))
    0
  let code_score := calculate_phrase_match_score nq.data code
  let doc_score := calculate_phrase_match_score nq.data (docstring ++ ' ' :: leading_comment)
  if 0 < error_msg_score then error_msg_score
  else if 0 < code_score then code_score * (4/5)
  else if 0 < doc_score then doc_score * (1/2)
  else 0

/-- Stable descending comparison on chunk scores. -/
def scoredChunkGe (a b : IndexedChunk × ℚ) : Bool := decide (b.2 ≤ a.2)

/-- Stable descending comparison on a file group's best score. -/
def fileGroupGe (a b : String × List (IndexedChunk × ℚ)) : Bool :=
  let bestA := (a.2.map Prod.snd).foldl max 0
  let bestB := (b.2.map Prod.snd).foldl max 0
  decide (bestB ≤ bestA)

/-- Insertion-ordered grouping by file path (the `file_groups` dict). -/
def groupByFile (l : List (IndexedChunk × ℚ)) : List (String × List (IndexedChunk × ℚ)) :=
  l.foldl
    (fun acc cs =>
      let fp := cs.1.file_path
      if acc.any (fun g => g.1 = fp) then
        acc.map (fun g => if g.1 = fp then (g.1, g.2 ++ [cs]) else g)
      else acc ++ [(fp, [cs])])
    []

/-- Best-scoring chunk of a group (Python `max(..., key=...)`: first of the
maximal score wins). -/
def bestChunkOf (l : List (IndexedChunk × ℚ)) : Option IndexedChunk :=
  match l with
  | [] => none
  | x :: rest =>
    some (rest.foldl (fun best cs => if best.2 < cs.2 then cs else best) x).1

/-- Tier 3 (code content fallback) of `search_chunk_index`. -/
def tier3Code (error_message : Str) (idx : IndexData) (nq : String) : List SearchResult :=
  let query_tokens := filter_significant_tokens ((pySplitWs (pyLower nq.data)).map String.mk)
  if query_tokens.length < 2 then []
  else
    let scored_chunks := idx.chunks.foldl
      (fun acc chunk =>
        let score := tier3ChunkScore nq chunk
        if 3/10 ≤ score then acc ++ [(chunk, score)] else acc)
      []
    let sorted := (stableSort scoredChunkGe scored_chunks).take 25
    match sorted with
    | [] => []
    | _ =>
      let file_groups := groupByFile sorted
      let sorted_files := stableSort fileGroupGe file_groups
      (sorted_files.take 10).foldl
        (fun results fg =>
          let (file_path, chunk_scores) := fg
          let chunks := chunk_scores.map Prod.fst
          let max_score := (chunk_scores.map Prod.snd).foldl max 0
          let best_chunk := (bestChunkOf chunk_scores).getD default
          let fromErrors := best_chunk.error_messages.findSome?
            (fun e => if pyIn (pyLower nq.data) (pyLower e.message.data)
              then some e.message.data else none)
          let matched_text :=
            match fromErrors with
            | some t => t
            | none =>
              let ex := extract_match_excerpt error_message best_chunk.code.data
              if !ex.isEmpty then ex
              else if best_chunk.code ≠ "" then
                if 150 < best_chunk.code.length then
                  best_chunk.code.data.take 150 ++ "...".data
                else best_chunk.code.data
              else []
          results ++ [{ error_key := String.mk ("Code match in ".data ++ file_path.data),
                        chunks := chunks, match_type := "code_search",
                        score := max_score, matched_text := String.mk matched_text }])
        []

/-- Final ordering key of `search_chunk_index`:
`(x.match_type != "exact", -x.score)` ascending, stable. -/
def resultLe (a b : SearchResult) : Bool :=
  let na : Bool := a.match_type != "exact"
  let nb : Bool := b.match_type != "exact"
  if na = nb then decide (b.score ≤ a.score)
  else if na then false else true

/-- Embedding of `search_chunk_index`: the three tiers, then the final sort
placing exact matches first. -/
def search_chunk_index (error_message : String) (idx : IndexData) : List SearchResult :=
  if error_message = "" then []
  else
    let nq := String.mk (normalize_error_message error_message.data)
    let (r1, seen1) := tier1Exact error_message.data idx nq
    let (r2, _) := tier2Partial error_message.data idx nq r1 seen1
    let r3 := if r2.isEmpty then tier3Code error_message.data idx nq else r2
    stableSort resultLe r3

/-! ## Walker accounting and scan invariant -/

/-- Sum of the four `files_skipped_*` counters. -/
def sumSkips (s : ScanStats) : Nat :=
  s.files_skipped_excluded_dir + s.files_skipped_symlink +
  s.files_skipped_too_big + s.files_skipped_unreadable

/-- Walk outcomes that increment one `files_skipped_*` counter. -/
def isTracked : WalkEv → Bool
  | .skipExcludedDir | .skipSymlinkDir | .skipSymlinkFile | .skipStatFail | .skipTooBig => true
  | _ => false

/-- Walk outcomes that hand a file to the scanning pass. -/
def isYieldEv : WalkEv → Bool
  | .yieldFile _ => true
  | _ => false

/-- Walk outcomes counted by no statistic: kept directories, non-regular
files and extension mismatches. -/
def isUntracked : WalkEv → Bool
  | .keptDir | .dropNotFile | .dropExt => true
  | _ => false

mutual

/-- Number of filesystem entries `os.walk` lists while walking one
directory's entry list: each visited directory contributes all its entries,
and only kept directories are descended into. -/
def visitedCount (exclude : List String) (follow : Bool) (entries : List FsEntry) : Nat :=
  entries.length + visitedSub exclude follow entries
termination_by sizeOf entries + 1
decreasing_by all_goals simp_wf

/-- Entries listed inside the kept subdirectories of `l`. -/
def visitedSub (exclude : List String) (follow : Bool) (l : List FsEntry) : Nat :=
  match l with
  | [] => 0
  | e :: rest =>
    (match e with
      | .dir name isLink sub =>
        if dirKept exclude follow (.dir name isLink sub) then visitedCount exclude follow sub
        else 0
      | .file .. => 0) + visitedSub exclude follow rest
termination_by sizeOf l
decreasing_by all_goals simp_wf <;> omega

end

/-- Scan invariant: the result count never exceeds the (clamped) budget, the
stop reason is "max_results" exactly when the budget is reached, `hits_found`
counts the collected results, every collected match carries the score
`compute_score` assigns and one of the three pass types, and the results are
deduplicated on `(path, line_no)` through the `seen` set. -/
def ScanInv (args : SearchArgs) (st : ScanSt) : Prop :=
  st.results.length ≤ mrNat args ∧
  (st.stats.stopped_reason = some "max_results" ↔ st.results.length = mrNat args) ∧
  st.stats.hits_found = st.results.length ∧
  (∀ m ∈ st.results,
    m.score = compute_score m.match_type m.line_text.data (args.component.map String.data)
      args.case_insensitive ∧
    (m.match_type = "exact" ∨ m.match_type = "normalized" ∨ m.match_type = "tokens")) ∧
  (st.results.map (fun m => (m.path, m.line_no))).Nodup ∧
  (∀ m ∈ st.results, st.seen.contains (m.path, m.line_no) = true)

/-- Snapshot invariant for the progress callback: every snapshot handed out
so far was due (files_scanned divisible by the period), and the first one is
the scan-start snapshot. -/
def SnapInv (args : SearchArgs) (st : ScanSt) : Prop :=
  (∀ s ∈ st.snaps, s.files_scanned % pevN args = 0) ∧
  st.snaps.head? = some { new_scan_stats with elapsed_seconds := args.clock 0 }

/-! ## Concrete inputs used by counterexamples and witnesses -/

/-- Concrete scan arguments (budget 2, one significant component). -/
def argsDemo : SearchArgs :=
  { key_exact := "Comp: hello world", key_normalized := "comp: hello world",
    tokens := ["comp", "hello", "world"], component := some "Comp",
    include_exts := [".py"], exclude_dir_names := [], case_insensitive := false,
    max_results := 2, follow_symlinks := false, max_file_bytes := 100,
    max_seconds := none, max_files_scanned := none, progress_every_n_files := 100,
    clock := fun _ => 0 }

/-- One root holding a single `.txt` file: visited but rejected by the
extension filter, so counted by no statistic. -/
def rootsTxt : List (String × List FsEntry) :=
  [("root", [FsEntry.file "a.txt" false true true 1 true ["hello"]])]

/-- Boolean form of the containment invariant `start_line ≤ m ≤ end_line`. -/
def containsMatchLineB (r : EnclosureResult) (m : Int) : Bool :=
  match r.start_line, r.end_line with
  | some s, some e => decide (s ≤ m) && decide (m ≤ e)
  | _, _ => false

/-- Two-line demo file: a `def` spanning lines 1–2. -/
def demoLines : List Str := ["def f():".data, "    return 1".data]

/-- Demo file whose first line opens a multi-line triple-quoted string
directly above a `def` (the input on which the source raises `NameError`). -/
def crashLines : List Str := [['"', '"', '"'], "def f():".data, "    x = 1".data]

def runDemoEnclosure (m : Option Int) : Except String EnclosureResult :=
  extract_enclosure "demo.py" (some demoLines) m 50

/-- Enclosure extracted for the in-range match line 2. -/
def demoEncl : EnclosureResult :=
  match runDemoEnclosure (some 2) with
  | .ok r => r
  | .error _ => default

/-- Enclosure extracted for the out-of-range match line 100. -/
def demoEncl100 : EnclosureResult :=
  match runDemoEnclosure (some 100) with
  | .ok r => r
  | .error _ => default

/-- Concrete chunk used to evaluate the chunk-id pipeline. -/
def chunkDemo : Chunk :=
  { file_path := "/repo/mod.py", function_name := "do_it", class_name := none,
    line_start := 4, line_end := 9, signature := some "def do_it(logger):",
    code := "def do_it(logger):\n    logger.error(\"Boom: failed\")",
    docstring := none, leading_comment := some "# helper",
    error_messages := [{ message := "Boom: failed", log_level := "E", source_type := "logging" }],
    log_levels := ["E"] }

/-! ## Theorems

General facts about the stable sort, then one theorem per claim. -/

theorem insSorted_perm (le : α → α → Bool) (x : α) (l : List α) :
    List.Perm (insSorted le x l) (x :: l) := by
  induction l with
  | nil => simp [insSorted]
  | cons y l ih =>
    simp only [insSorted]
    by_cases h : le y x = true
    · simp only [h, if_true]
      exact (List.Perm.cons y ih).trans (List.Perm.swap x y l)
    · simp [h]

theorem foldl_insSorted_perm (le : α → α → Bool) (l : List α) :
    ∀ acc, List.Perm (l.foldl (fun acc x => insSorted le x acc) acc) (acc ++ l) := by
  induction l with
  | nil => intro acc; simp
  | cons x l ih =>
    intro acc
    simp only [List.foldl_cons]
    exact (ih (insSorted le x acc)).trans
      (((insSorted_perm le x acc).append_right l).trans List.perm_middle.symm)

theorem stableSort_perm (le : α → α → Bool) (l : List α) :
    List.Perm (stableSort le l) l := by
  simpa using foldl_insSorted_perm le l []

theorem pairwise_insSorted (le : α → α → Bool)
    (htrans : ∀ a b c, le a b = true → le b c = true → le a c = true)
    (htotal : ∀ a b, le a b = true ∨ le b a = true)
    (x : α) (l : List α) (h : l.Pairwise (fun a b => le a b = true)) :
    (insSorted le x l).Pairwise (fun a b => le a b = true) := by
  induction l with
  | nil => simp [insSorted]
  | cons y l ih =>
    rcases List.pairwise_cons.mp h with ⟨hy, hl⟩
    simp only [insSorted]
    by_cases hyx : le y x = true
    · simp only [hyx, if_true]
      refine List.pairwise_cons.mpr ⟨?_, ih hl⟩
      intro z hz
      have hz' : z ∈ x :: l := ((insSorted_perm le x l).mem_iff).mp hz
      rcases List.mem_cons.mp hz' with rfl | hzl
      · exact hyx
      · exact hy z hzl
    · have hxy : le x y = true := by
        rcases htotal x y with h1 | h1
        · exact h1
        · exact absurd h1 hyx
      rw [if_neg hyx]
      refine List.pairwise_cons.mpr ⟨?_, h⟩
      intro z hz
      rcases List.mem_cons.mp hz with rfl | hzl
      · exact hxy
      · exact htrans x y z hxy (hy z hzl)

theorem foldl_insSorted_pairwise (le : α → α → Bool)
    (htrans : ∀ a b c, le a b = true → le b c = true → le a c = true)
    (htotal : ∀ a b, le a b = true ∨ le b a = true) (l : List α) :
    ∀ acc, acc.Pairwise (fun a b => le a b = true) →
      (l.foldl (fun acc x => insSorted le x acc) acc).Pairwise (fun a b => le a b = true) := by
  induction l with
  | nil => intro acc h; simpa using h
  | cons x l ih =>
    intro acc h
    simp only [List.foldl_cons]
    exact ih _ (pairwise_insSorted le htrans htotal x acc h)

theorem pairwise_stableSort (le : α → α → Bool)
    (htrans : ∀ a b c, le a b = true → le b c = true → le a c = true)
    (htotal : ∀ a b, le a b = true ∨ le b a = true) (l : List α) :
    (stableSort le l).Pairwise (fun a b => le a b = true) :=
  foldl_insSorted_pairwise le htrans htotal l [] (by simp)

theorem resultLe_total (a b : SearchResult) : resultLe a b = true ∨ resultLe b a = true := by
  simp only [resultLe]
  cases hna : a.match_type != "exact" <;> cases hnb : b.match_type != "exact" <;>
    simp [le_total]

theorem resultLe_trans (a b c : SearchResult) :
    resultLe a b = true → resultLe b c = true → resultLe a c = true := by
  simp only [resultLe]
  cases hna : a.match_type != "exact" <;> cases hnb : b.match_type != "exact" <;>
    cases hnc : c.match_type != "exact" <;> simp
  · exact fun h1 h2 => le_trans h2 h1
  · exact fun h1 h2 => le_trans h2 h1

theorem resultLe_exact_first {a b : SearchResult} (h : resultLe a b = true) :
    a.match_type = "exact" ∨ b.match_type ≠ "exact" := by
  by_cases ha : a.match_type = "exact"
  · exact Or.inl ha
  · refine Or.inr (fun hb => ?_)
    simp [resultLe, ha, hb] at h

/-- C7: in the final list returned by `search_chunk_index`, every result with
match_type "exact" is ordered before every result with match_type "partial"
or "code_search", regardless of the scores of the non-exact results: no
non-exact result ever precedes an exact one. -/
theorem search_chunk_index_exact_results_first (q : String) (idx : IndexData) :
    (search_chunk_index q idx).Pairwise
      (fun a b => a.match_type = "exact" ∨ b.match_type ≠ "exact") := by
  unfold search_chunk_index
  by_cases h : q = ""
  · simp [h]
  · rw [if_neg h]
    exact (pairwise_stableSort resultLe resultLe_trans resultLe_total _).imp
      (fun h => resultLe_exact_first h)

/-- C4 (counterexample): `parse_line "H P: <I> [#4] Comp: msg"` does not
satisfy the claimed field values: the thread field is not "4" (the regex
group `[^\]]+` keeps the "#"). -/
theorem parse_line_example_counterexample :
    ¬ ((parse_line "H P: <I> [#4] Comp: msg").component = some "Comp" ∧
       (parse_line "H P: <I> [#4] Comp: msg").level = some "I" ∧
       (parse_line "H P: <I> [#4] Comp: msg").thread = some "4" ∧
       (parse_line "H P: <I> [#4] Comp: msg").message = "msg") := by decide

/-- C4 (amended): `parse_line "H P: <I> [#4] Comp: msg"` yields
component "Comp", level "I", thread "#4" and message "msg". -/
theorem parse_line_example_fields :
    (parse_line "H P: <I> [#4] Comp: msg").component = some "Comp" ∧
    (parse_line "H P: <I> [#4] Comp: msg").level = some "I" ∧
    (parse_line "H P: <I> [#4] Comp: msg").thread = some "#4" ∧
    (parse_line "H P: <I> [#4] Comp: msg").message = "msg" := by decide

set_option maxRecDepth 100000 in
/-- C3 (counterexample): the chunk id is not the SHA-256 of the canonical
JSON of the chunk's fields: `hexdigest()[:16]` keeps only the first 16 of
its 64 hex characters, as this concrete chunk shows. -/
theorem chunk_id_not_full_sha_counterexample :
    extract_function_chunk_id chunkDemo ≠
      String.mk (sha256hexStr (chunkCanonicalJson chunkDemo)) := by decide

/-- C3 (amended): the chunk id equals the first 16 hex characters of the
SHA-256 of the canonical (sorted-key) JSON of the chunk's fields, and is a
pure function of that serialisation, hence identical across any two
independent indexing runs that serialise the unchanged chunk identically. -/
theorem chunk_id_first16_sha (c c' : Chunk)
    (h : chunkCanonicalJson c = chunkCanonicalJson c') :
    extract_function_chunk_id c = extract_function_chunk_id c' ∧
    (extract_function_chunk_id c).data = (sha256hexStr (chunkCanonicalJson c)).take 16 := by
  constructor
  · unfold extract_function_chunk_id
    rw [h]
  · rfl

theorem chunk_id_first16_sha_witness :
    extract_function_chunk_id chunkDemo = extract_function_chunk_id chunkDemo ∧
    (extract_function_chunk_id chunkDemo).data =
      (sha256hexStr (chunkCanonicalJson chunkDemo)).take 16 :=
  chunk_id_first16_sha chunkDemo chunkDemo rfl

/-- C10: at the failing input — a file whose first line opens a multi-line
triple-quoted string directly above the enclosing `def` — `extract_enclosure`
propagates a `NameError` (the leading-comment walk reads its inner loop
variable `j` although the loop body never ran) instead of returning a
populated result dict. -/
theorem extract_enclosure_raises_at_failing_input :
    extract_enclosure "demo.py" (some crashLines) (some 3) 50 =
      Except.error "NameError: local variable j referenced before assignment" := by decide

/-- Containment of the accepted candidate over the whole candidate loop:
whatever non-degraded result `tryCandidates` returns was accepted through
`validate_containment`, so its line span contains the clamped match index. -/
theorem tryCandidates_contains (path : String) (lines : List Str) (n i : Nat) (cf : Int)
    (out0 : EnclosureResult) :
    ∀ cand r, tryCandidates path lines n i cf out0 cand = Except.ok r →
      (r.enclosure_type = "def" ∨ r.enclosure_type = "async_def" ∨
        r.enclosure_type = "class") →
      containsMatchLineB r ((i : Int) + 1) = true := by
  intro cand
  induction cand with
  | nil =>
    intro r hr hnd
    simp only [tryCandidates] at hr
    cases hr
    simp at hnd
  | cons header_idx rest ih =>
    intro r hr hnd
    rcases hcb : compute_block_bounds lines n header_idx with ⟨s_idx, e_idx, dsi, dls⟩
    simp only [tryCandidates, hcb] at hr
    by_cases hdef : (is_def (lines.getD header_idx []) &&
        !reAsyncDefMatch (lines.getD header_idx [])) || reAsyncDefMatch (lines.getD header_idx [])
    · rw [if_pos hdef] at hr
      by_cases hcont : validate_containment s_idx e_idx i = true
      · rw [if_pos hcont] at hr
        have hb := hcont
        unfold validate_containment at hb
        simp only [Bool.and_eq_true, decide_eq_true_eq] at hb
        revert hr
        cases hlc : extract_leading_comment_block lines (header_idx + 1) with
        | error e => intro hr; cases hr
        | ok v =>
          intro hr
          obtain ⟨cb, cs, ce⟩ := v
          cases hr
          simp only [containsMatchLineB]
          simp only [Bool.and_eq_true, decide_eq_true_eq]
          omega
      · rw [if_neg hcont] at hr
        exact ih r hr hnd
    · rw [if_neg hdef] at hr
      by_cases hcls : is_class (lines.getD header_idx []) = true
      · rw [if_pos hcls] at hr
        by_cases hcont : validate_containment s_idx e_idx i = true
        · rw [if_pos hcont] at hr
          have hb := hcont
          unfold validate_containment at hb
          simp only [Bool.and_eq_true, decide_eq_true_eq] at hb
          revert hr
          cases hlc : extract_leading_comment_block lines (header_idx + 1) with
          | error e => intro hr; cases hr
          | ok v =>
            intro hr
            obtain ⟨cb, cs, ce⟩ := v
            cases hr
            simp only [containsMatchLineB]
            simp only [Bool.and_eq_true, decide_eq_true_eq]
            omega
        · rw [if_neg hcont] at hr
          exact ih r hr hnd
      · rw [if_neg hcls] at hr
        exact ih r hr hnd

/-- C1 (amended): every non-degraded result of `extract_enclosure` (type
def, async_def or class) contains the clamped match line: `start_line ≤
clamp(match_line, 1, line count) ≤ end_line`, the containment having been
checked per candidate by `validate_containment` before acceptance.  For a
match_line already within `[1, line count]` the clamped line is match_line
itself. -/
theorem extract_enclosure_nondegraded_contains (path : String) (lines : List Str)
    (m : Option Int) (cf : Int) (r : EnclosureResult)
    (hok : extract_enclosure path (some lines) m cf = Except.ok r)
    (hnd : r.enclosure_type = "def" ∨ r.enclosure_type = "async_def" ∨
      r.enclosure_type = "class") :
    containsMatchLineB r (((clampLine m lines.length : Nat) : Int) + 1) = true := by
  simp only [extract_enclosure] at hok
  by_cases hp : path = ""
  · rw [if_pos hp] at hok
    cases hok
    simp [enclosureOut0] at hnd
  · rw [if_neg hp] at hok
    by_cases hn : lines.length = 0
    · rw [if_pos hn] at hok
      cases hok
      simp [enclosureOut0] at hnd
    · rw [if_neg hn] at hok
      exact tryCandidates_contains path lines lines.length (clampLine m lines.length) cf
        _ _ r hok hnd

theorem extract_enclosure_nondegraded_contains_witness :
    containsMatchLineB demoEncl (((clampLine (some 2) demoLines.length : Nat) : Int) + 1)
      = true :=
  extract_enclosure_nondegraded_contains "demo.py" demoLines (some 2) 50 demoEncl rfl
    (Or.inl rfl)

/-- C1 (counterexample): called with match_line 100 on a two-line file, the
extractor still returns a non-degraded "def" result (the match index is
clamped to the last line), whose span `[1, 2]` does not contain 100 — so
`start_line ≤ match_line ≤ end_line` fails for the call's own match_line. -/
theorem extract_enclosure_containment_counterexample :
    extract_enclosure "demo.py" (some demoLines) (some 100) 50 = Except.ok demoEncl100 ∧
    demoEncl100.enclosure_type = "def" ∧
    containsMatchLineB demoEncl100 100 = false := by
  refine ⟨rfl, rfl, by decide⟩

theorem elapsedStep_frame (args : SearchArgs) (st : ScanSt) :
    (elapsedStep args st).results = st.results ∧
    (elapsedStep args st).seen = st.seen ∧
    (elapsedStep args st).files1 = st.files1 ∧
    (elapsedStep args st).snaps = st.snaps ∧
    (elapsedStep args st).stats.stopped_reason = st.stats.stopped_reason ∧
    (elapsedStep args st).stats.hits_found = st.stats.hits_found ∧
    (elapsedStep args st).stats.files_scanned = st.stats.files_scanned := by
  simp [elapsedStep]

theorem maybe_progress_frame (cb : Option ProgressCb) (args : SearchArgs) (force : Bool)
    (st : ScanSt) :
    (maybe_progress cb args force st).results = st.results ∧
    (maybe_progress cb args force st).seen = st.seen ∧
    (maybe_progress cb args force st).files1 = st.files1 ∧
    (maybe_progress cb args force st).stats.stopped_reason = st.stats.stopped_reason ∧
    (maybe_progress cb args force st).stats.hits_found = st.stats.hits_found ∧
    (maybe_progress cb args force st).stats.files_scanned = st.stats.files_scanned := by
  cases cb with
  | none => simp [maybe_progress, elapsedStep]
  | some f =>
    simp only [maybe_progress, elapsedStep]
    split <;> simp

theorem scanInv_frame (args : SearchArgs) {st st' : ScanSt}
    (h : ScanInv args st)
    (hres : st'.results = st.results)
    (hseen : st'.seen = st.seen)
    (hreason : st'.stats.stopped_reason = st.stats.stopped_reason)
    (hhits : st'.stats.hits_found = st.stats.hits_found) :
    ScanInv args st' := by
  obtain ⟨h1, h2, h3, h4, h5, h6⟩ := h
  refine ⟨?_, ?_, ?_, ?_, ?_, ?_⟩ <;> rw [hres]
  · exact h1
  · rw [hreason]; exact h2
  · rw [hhits]; exact h3
  · exact h4
  · exact h5
  · rw [hseen]; exact h6

theorem scanInv_maybe_progress (cb : Option ProgressCb) (args : SearchArgs) (force : Bool)
    {st : ScanSt} (h : ScanInv args st) :
    ScanInv args (maybe_progress cb args force st) := by
  obtain ⟨f1, f2, _, f4, f5, _⟩ := maybe_progress_frame cb args force st
  exact scanInv_frame args h f1 f2 f4 f5

theorem scanInv_elapsedStep (args : SearchArgs) {st : ScanSt} (h : ScanInv args st) :
    ScanInv args (elapsedStep args st) := by
  obtain ⟨f1, f2, _, _, f5, f6, _⟩ := elapsedStep_frame args st
  exact scanInv_frame args h f1 f2 f5 f6

theorem scanInv_applyWalkSkip (args : SearchArgs) {st : ScanSt} (ev : WalkEv)
    (h : ScanInv args st) :
    ScanInv args (applyWalkSkip st ev) := by
  refine scanInv_frame args h ?_ ?_ ?_ ?_ <;> cases ev <;> simp [applyWalkSkip]

theorem one_le_mrNat (args : SearchArgs) : 1 ≤ mrNat args := by
  unfold mrNat
  split
  · omega
  · omega

theorem scanInv_init (args : SearchArgs) : ScanInv args initScanSt := by
  have hmr := one_le_mrNat args
  refine ⟨by simp [initScanSt], ?_, by simp [initScanSt, new_scan_stats], ?_, ?_, ?_⟩
  · constructor
    · intro h
      simp [initScanSt, new_scan_stats] at h
    · intro h
      simp [initScanSt] at h
      omega
  · intro m hm
    simp [initScanSt] at hm
  · simp [initScanSt]
  · intro m hm
    simp [initScanSt] at hm

theorem should_stop_spec (args : SearchArgs) (st : ScanSt)
    (hn : st.stats.stopped_reason = none) (h : ScanInv args st) :
    ScanInv args (should_stop args st).2 ∧
    (should_stop args st).2.results = st.results ∧
    (should_stop args st).2.seen = st.seen ∧
    (should_stop args st).2.files1 = st.files1 ∧
    ((should_stop args st).1 = false → (should_stop args st).2.stats.stopped_reason = none) := by
  have hlen : st.results.length < mrNat args := by
    obtain ⟨h1, h2, _⟩ := h
    have : ¬ st.results.length = mrNat args := by
      intro he
      have := h2.mpr he
      rw [hn] at this
      cases this
    omega
  have hstep := scanInv_elapsedStep args h
  obtain ⟨e1, e2, e3, _, e5, e6, _⟩ := elapsedStep_frame args st
  unfold should_stop
  by_cases ht : (match args.max_seconds with
      | some ms => decide (ms ≤ (elapsedStep args st).stats.elapsed_seconds)
      | none => false) = true
  · rw [if_pos ht]
    refine ⟨?_, by simp [setReason, e1], by simp [setReason, e2], by simp [setReason, e3],
      by intro hc; cases hc⟩
    obtain ⟨h1, _, h3, h4, h5, h6⟩ := hstep
    refine ⟨h1, ?_, h3, h4, h5, h6⟩
    simp only [setReason]
    constructor
    · intro hx
      simp at hx
    · intro hx
      rw [e1] at hx
      omega
  · rw [if_neg ht]
    by_cases hf : (match args.max_files_scanned with
        | some mf => decide (mf ≤ ((elapsedStep args st).stats.files_scanned : Int))
        | none => false) = true
    · rw [if_pos hf]
      refine ⟨?_, by simp [setReason, e1], by simp [setReason, e2], by simp [setReason, e3],
        by intro hc; cases hc⟩
      obtain ⟨h1, _, h3, h4, h5, h6⟩ := hstep
      refine ⟨h1, ?_, h3, h4, h5, h6⟩
      simp only [setReason]
      constructor
      · intro hx
        simp at hx
      · intro hx
        rw [e1] at hx
        omega
    · rw [if_neg hf]
      by_cases hm : mrNat args ≤ (elapsedStep args st).results.length
      · rw [e1] at hm
        omega
      · rw [if_neg hm]
        exact ⟨hstep, e1, e2, e3, fun _ => by rw [e5, hn]⟩

theorem add_match_cases (results : List Match) (seen : List (String × Nat)) (path : String)
    (ln : Nat) (text : String) (mt : String) (score : ℚ) :
    (seen.contains (path, ln) = true ∧
      add_match results seen path ln text mt score = (results, seen)) ∨
    (seen.contains (path, ln) = false ∧
      add_match results seen path ln text mt score =
        (results ++ [(⟨path, ln, text, mt, score⟩ : Match)], seen ++ [(path, ln)])) := by
  by_cases h : seen.contains (path, ln) = true
  · exact Or.inl ⟨h, by simp only [add_match, h, if_true]⟩
  · have h' : seen.contains (path, ln) = false := by simpa using h
    exact Or.inr ⟨h', by simp only [add_match, h', Bool.false_eq_true, if_false]⟩

theorem lineLoop_append (mt key : String) (toks : List String) (args : SearchArgs)
    (path : String) :
    ∀ ls (st : ScanSt),
      ∃ added, (lineLoop mt key toks args path ls st).results = st.results ++ added ∧
        (∀ m ∈ added, m.match_type = mt) ∧
        (lineLoop mt key toks args path ls st).snaps = st.snaps ∧
        (lineLoop mt key toks args path ls st).files1 = st.files1 := by
  intro ls
  induction ls with
  | nil =>
    intro st
    exact ⟨[], by simp [lineLoop], by simp, by simp [lineLoop], by simp [lineLoop]⟩
  | cons p rest ih =>
    intro st
    obtain ⟨ln, text⟩ := p
    by_cases hok : passLineOk mt key toks args.case_insensitive text = true
    · rcases add_match_cases st.results st.seen path ln text mt
          (compute_score mt text.data (args.component.map String.data) args.case_insensitive)
        with ⟨hseen, hadd⟩ | ⟨hseen, hadd⟩
      · -- duplicate (path, line_no): nothing appended at this line
        simp only [lineLoop, hok, Bool.not_true, Bool.false_eq_true, if_false, hadd]
        have hlt : ¬ st.results.length < st.results.length := lt_irrefl _
        rw [if_neg hlt]
        by_cases hstop : mrNat args ≤ st.results.length
        · rw [if_pos hstop]
          exact ⟨[], by simp [setReason], by simp, by simp [setReason], by simp [setReason]⟩
        · rw [if_neg hstop]
          obtain ⟨a, ha1, ha2, ha3, ha4⟩ :=
            ih { st with results := st.results, seen := st.seen, stats := st.stats }
          exact ⟨a, by simpa using ha1, ha2, by simpa using ha3, by simpa using ha4⟩
      · -- new match appended
        simp only [lineLoop, hok, Bool.not_true, Bool.false_eq_true, if_false, hadd]
        have hlt : st.results.length < (st.results ++
            [(⟨path, ln, text, mt, compute_score mt text.data
              (args.component.map String.data) args.case_insensitive⟩ : Match)]).length := by
          simp
        rw [if_pos hlt]
        by_cases hstop : mrNat args ≤ (st.results ++
            [(⟨path, ln, text, mt, compute_score mt text.data
              (args.component.map String.data) args.case_insensitive⟩ : Match)]).length
        · rw [if_pos hstop]
          refine ⟨[(⟨path, ln, text, mt, compute_score mt text.data
              (args.component.map String.data) args.case_insensitive⟩ : Match)],
            by simp [setReason], ?_, by simp [setReason], by simp [setReason]⟩
          intro m hm
          simp at hm
          rw [hm]
        · rw [if_neg hstop]
          obtain ⟨a, ha1, ha2, ha3, ha4⟩ := ih _
          refine ⟨(⟨path, ln, text, mt, compute_score mt text.data
              (args.component.map String.data) args.case_insensitive⟩ : Match) :: a,
            ?_, ?_, by simpa using ha3, by simpa using ha4⟩
          · rw [ha1]
            simp
          · intro m hm
            rcases List.mem_cons.mp hm with rfl | hma
            · rfl
            · exact ha2 m hma
    · have hok' : passLineOk mt key toks args.case_insensitive text = false := by
        simpa using hok
      simp only [lineLoop, hok', Bool.not_false, if_true]
      exact ih st

theorem scanInv_len_lt (args : SearchArgs) {st : ScanSt} (h : ScanInv args st)
    (hn : st.stats.stopped_reason = none) : st.results.length < mrNat args := by
  obtain ⟨h1, h2, _⟩ := h
  have : ¬ st.results.length = mrNat args := by
    intro he
    have := h2.mpr he
    rw [hn] at this
    cases this
  omega

theorem lineLoop_inv (mt key : String) (toks : List String) (args : SearchArgs) (path : String)
    (hmt : mt = "exact" ∨ mt = "normalized" ∨ mt = "tokens") :
    ∀ ls (st : ScanSt), ScanInv args st → st.stats.stopped_reason = none →
      ScanInv args (lineLoop mt key toks args path ls st) ∧
      ((lineLoop mt key toks args path ls st).stats.stopped_reason = none ∨
        (lineLoop mt key toks args path ls st).stats.stopped_reason = some "max_results") := by
  intro ls
  induction ls with
  | nil =>
    intro st h hn
    exact ⟨by simpa [lineLoop] using h, by simp [lineLoop, hn]⟩
  | cons p rest ih =>
    intro st h hn
    obtain ⟨ln, text⟩ := p
    have hlt := scanInv_len_lt args h hn
    by_cases hok : passLineOk mt key toks args.case_insensitive text = true
    · rcases add_match_cases st.results st.seen path ln text mt
          (compute_score mt text.data (args.component.map String.data) args.case_insensitive)
        with ⟨hseen, hadd⟩ | ⟨hseen, hadd⟩
      · -- duplicate: state unchanged at this line
        simp only [lineLoop, hok, Bool.not_true, Bool.false_eq_true, if_false, hadd]
        have hlt2 : ¬ st.results.length < st.results.length := lt_irrefl _
        rw [if_neg hlt2]
        have hstop : ¬ mrNat args ≤ st.results.length := by omega
        rw [if_neg hstop]
        have hfr : ScanInv args
            { st with results := st.results, seen := st.seen, stats := st.stats } := by
          exact scanInv_frame args h rfl rfl rfl rfl
        exact ih _ hfr hn
      · -- new match
        simp only [lineLoop, hok, Bool.not_true, Bool.false_eq_true, if_false, hadd]
        obtain ⟨h1, h2, h3, h4, h5, h6⟩ := h
        have hkeynotin : (path, ln) ∉ st.results.map (fun m => (m.path, m.line_no)) := by
          intro hmem
          obtain ⟨m, hm, hkey⟩ := List.mem_map.mp hmem
          have := h6 m hm
          rw [hkey] at this
          rw [this] at hseen
          cases hseen
        have hlen1 : (st.results ++ [(⟨path, ln, text, mt, compute_score mt text.data
            (args.component.map String.data) args.case_insensitive⟩ : Match)]).length =
            st.results.length + 1 := by simp
        have hP : ∀ m ∈ st.results ++ [(⟨path, ln, text, mt, compute_score mt text.data
            (args.component.map String.data) args.case_insensitive⟩ : Match)],
            m.score = compute_score m.match_type m.line_text.data
              (args.component.map String.data) args.case_insensitive ∧
            (m.match_type = "exact" ∨ m.match_type = "normalized" ∨ m.match_type = "tokens") := by
          intro m hm
          rcases List.mem_append.mp hm with hma | hmb
          · exact h4 m hma
          · simp at hmb
            subst hmb
            exact ⟨rfl, hmt⟩
        have hNodup : ((st.results ++ [(⟨path, ln, text, mt, compute_score mt text.data
            (args.component.map String.data) args.case_insensitive⟩ : Match)]).map
              (fun m => (m.path, m.line_no))).Nodup := by
          rw [List.map_append]
          rw [List.nodup_append]
          refine ⟨h5, by simp, ?_⟩
          intro k hk hk2
          simp at hk2
          rw [hk2] at hk
          exact hkeynotin hk
        have hSeen : ∀ m ∈ st.results ++ [(⟨path, ln, text, mt, compute_score mt text.data
            (args.component.map String.data) args.case_insensitive⟩ : Match)],
            (st.seen ++ [(path, ln)]).contains (m.path, m.line_no) = true := by
          intro m hm
          rcases List.mem_append.mp hm with hma | hmb
          · have := h6 m hma
            have hmem : (m.path, m.line_no) ∈ st.seen := by simpa using this
            simp [hmem]
          · simp at hmb
            subst hmb
            simp
        have hlt2 : st.results.length < (st.results ++ [(⟨path, ln, text, mt,
            compute_score mt text.data (args.component.map String.data)
              args.case_insensitive⟩ : Match)]).length := by
          simp
        by_cases hstop : mrNat args ≤ st.results.length + 1
        · have hstop' : mrNat args ≤ (st.results ++ [(⟨path, ln, text, mt,
              compute_score mt text.data (args.component.map String.data)
                args.case_insensitive⟩ : Match)]).length := by
            rw [hlen1]
            exact hstop
          rw [if_pos hlt2, if_pos hstop']
          have heq : st.results.length + 1 = mrNat args := by omega
          refine ⟨⟨?_, ?_, ?_, ?_, ?_, ?_⟩, Or.inr rfl⟩
          · simp [setReason, heq]
          · simp only [setReason]
            refine ⟨fun _ => ?_, fun _ => ?_⟩
            · simpa [hlen1] using heq
            · trivial
          · simp [setReason, h3]
          · intro m hm
            simp only [setReason] at hm
            exact hP m hm
          · simpa [setReason] using hNodup
          · intro m hm
            simp only [setReason] at hm
            exact hSeen m hm
        · have hstop' : ¬ mrNat args ≤ (st.results ++ [(⟨path, ln, text, mt,
              compute_score mt text.data (args.component.map String.data)
                args.case_insensitive⟩ : Match)]).length := by
            rw [hlen1]
            exact hstop
          rw [if_pos hlt2, if_neg hstop']
          refine ih _ ⟨?_, ?_, ?_, hP, hNodup, hSeen⟩ (by simpa using hn)
          · rw [hlen1]; omega
          · simp only []
            rw [hlen1]
            constructor
            · intro hx
              rw [hn] at hx
              cases hx
            · intro hx
              omega
          · simp [h3]
    · have hok' : passLineOk mt key toks args.case_insensitive text = false := by
        simpa using hok
      simp only [lineLoop, hok', Bool.not_false, if_true]
      exact ih st h hn

theorem processFile_append (cb : Option ProgressCb) (mt key : String) (toks : List String)
    (args : SearchArgs) (st : ScanSt) (f : PyFile) :
    ∃ added, (processFile cb mt key toks args st f).results = st.results ++ added ∧
      (∀ m ∈ added, m.match_type = mt) ∧
      (processFile cb mt key toks args st f).files1 = st.files1 := by
  unfold processFile
  obtain ⟨m1, m2, m3, m4, m5, m6⟩ := maybe_progress_frame cb args false
    { (if f.readable then lineLoop mt key toks args f.path (enum1 f.lines) st
       else { st with stats :=
        { st.stats with files_skipped_unreadable := st.stats.files_skipped_unreadable + 1 } }) with
      stats := { (if f.readable then lineLoop mt key toks args f.path (enum1 f.lines) st
       else { st with stats :=
        { st.stats with files_skipped_unreadable := st.stats.files_skipped_unreadable + 1 } }).stats
        with files_scanned := (if f.readable then
          lineLoop mt key toks args f.path (enum1 f.lines) st
       else { st with stats :=
        { st.stats with files_skipped_unreadable := st.stats.files_skipped_unreadable + 1 } }).stats.files_scanned + 1 } }
  by_cases hr : f.readable = true
  · rw [if_pos hr] at m1 m3 ⊢
    obtain ⟨a, h1, h2, _, h4⟩ := lineLoop_append mt key toks args f.path (enum1 f.lines) st
    refine ⟨a, ?_, h2, ?_⟩
    · rw [m1]
      simpa using h1
    · rw [m3]
      simpa using h4
  · rw [if_neg hr] at m1 m3 ⊢
    refine ⟨[], ?_, by simp, ?_⟩
    · rw [m1]
      simp
    · rw [m3]

theorem processFile_inv (cb : Option ProgressCb) (mt key : String) (toks : List String)
    (args : SearchArgs)
    (hmt : mt = "exact" ∨ mt = "normalized" ∨ mt = "tokens")
    (st : ScanSt) (f : PyFile) (h : ScanInv args st) (hn : st.stats.stopped_reason = none) :
    ScanInv args (processFile cb mt key toks args st f) ∧
    ((processFile cb mt key toks args st f).stats.stopped_reason = none ∨
      (processFile cb mt key toks args st f).stats.stopped_reason = some "max_results") := by
  unfold processFile
  by_cases hr : f.readable = true
  · rw [if_pos hr]
    obtain ⟨hinv, hcls⟩ := lineLoop_inv mt key toks args f.path hmt (enum1 f.lines) st h hn
    obtain ⟨m1, m2, _, m4, m5, _⟩ := maybe_progress_frame cb args false _
    constructor
    · refine scanInv_frame args ?_ m1 m2 m4 m5
      exact scanInv_frame args hinv rfl rfl rfl rfl
    · rw [m4]
      exact hcls
  · rw [if_neg hr]
    obtain ⟨m1, m2, _, m4, m5, _⟩ := maybe_progress_frame cb args false _
    constructor
    · refine scanInv_frame args ?_ m1 m2 m4 m5
      exact scanInv_frame args h rfl rfl rfl rfl
    · rw [m4]
      exact Or.inl hn

theorem should_stop_frame (args : SearchArgs) (st : ScanSt) :
    (should_stop args st).2.results = st.results ∧
    (should_stop args st).2.seen = st.seen ∧
    (should_stop args st).2.files1 = st.files1 ∧
    (should_stop args st).2.snaps = st.snaps := by
  obtain ⟨e1, e2, e3, e4, _⟩ := elapsedStep_frame args st
  simp only [should_stop]
  repeat' split
  all_goals simp_all [setReason]

theorem runPass1_append (cb : Option ProgressCb) (args : SearchArgs) :
    ∀ evs (st : ScanSt), ∃ added,
      (runPass1 cb args evs st).results = st.results ++ added ∧
      ∀ m ∈ added, m.match_type = "exact" := by
  intro evs
  induction evs with
  | nil =>
    intro st
    exact ⟨[], by simp [runPass1], by simp⟩
  | cons ev rest ih =>
    intro st
    cases ev with
    | yieldFile f =>
      simp only [runPass1]
      obtain ⟨s1, _, _, _⟩ := should_stop_frame args { st with files1 := st.files1 ++ [f] }
      have hres2 : (should_stop args { st with files1 := st.files1 ++ [f] }).2.results
          = st.results := by
        rw [s1]
      by_cases hstop : (should_stop args { st with files1 := st.files1 ++ [f] }).1 = true
      · rw [if_pos hstop]
        exact ⟨[], by rw [hres2, List.append_nil], by simp⟩
      · rw [if_neg hstop]
        obtain ⟨a1, hp1, hp2, _⟩ := processFile_append cb "exact" args.key_exact [] args
          (should_stop args { st with files1 := st.files1 ++ [f] }).2 f
        by_cases hmr : (processFile cb "exact" args.key_exact [] args
            (should_stop args { st with files1 := st.files1 ++ [f] }).2 f).stats.stopped_reason
            = some "max_results"
        · rw [if_pos hmr]
          exact ⟨a1, by rw [hp1, hres2], hp2⟩
        · rw [if_neg hmr]
          obtain ⟨a2, hq1, hq2⟩ := ih (processFile cb "exact" args.key_exact [] args
            (should_stop args { st with files1 := st.files1 ++ [f] }).2 f)
          refine ⟨a1 ++ a2, ?_, ?_⟩
          · rw [hq1, hp1, hres2, List.append_assoc]
          · intro m hm
            rcases List.mem_append.mp hm with h1 | h2
            · exact hp2 m h1
            · exact hq2 m h2
    | skipExcludedDir =>
      simp only [runPass1]
      obtain ⟨a, h1, h2⟩ := ih (applyWalkSkip st .skipExcludedDir)
      exact ⟨a, by rw [h1]; simp [applyWalkSkip], h2⟩
    | skipSymlinkDir =>
      simp only [runPass1]
      obtain ⟨a, h1, h2⟩ := ih (applyWalkSkip st .skipSymlinkDir)
      exact ⟨a, by rw [h1]; simp [applyWalkSkip], h2⟩
    | keptDir =>
      simp only [runPass1]
      obtain ⟨a, h1, h2⟩ := ih (applyWalkSkip st .keptDir)
      exact ⟨a, by rw [h1]; simp [applyWalkSkip], h2⟩
    | skipSymlinkFile =>
      simp only [runPass1]
      obtain ⟨a, h1, h2⟩ := ih (applyWalkSkip st .skipSymlinkFile)
      exact ⟨a, by rw [h1]; simp [applyWalkSkip], h2⟩
    | skipStatFail =>
      simp only [runPass1]
      obtain ⟨a, h1, h2⟩ := ih (applyWalkSkip st .skipStatFail)
      exact ⟨a, by rw [h1]; simp [applyWalkSkip], h2⟩
    | dropNotFile =>
      simp only [runPass1]
      obtain ⟨a, h1, h2⟩ := ih (applyWalkSkip st .dropNotFile)
      exact ⟨a, by rw [h1]; simp [applyWalkSkip], h2⟩
    | skipTooBig =>
      simp only [runPass1]
      obtain ⟨a, h1, h2⟩ := ih (applyWalkSkip st .skipTooBig)
      exact ⟨a, by rw [h1]; simp [applyWalkSkip], h2⟩
    | dropExt =>
      simp only [runPass1]
      obtain ⟨a, h1, h2⟩ := ih (applyWalkSkip st .dropExt)
      exact ⟨a, by rw [h1]; simp [applyWalkSkip], h2⟩

theorem runPassFiles_append (cb : Option ProgressCb) (mt key : String) (toks : List String)
    (args : SearchArgs) :
    ∀ fs (st : ScanSt), ∃ added,
      (runPassFiles cb mt key toks args fs st).results = st.results ++ added ∧
      ∀ m ∈ added, m.match_type = mt := by
  intro fs
  induction fs with
  | nil =>
    intro st
    exact ⟨[], by simp [runPassFiles], by simp⟩
  | cons f rest ih =>
    intro st
    simp only [runPassFiles]
    obtain ⟨s1, _, _, _⟩ := should_stop_frame args st
    by_cases hstop : (should_stop args st).1 = true
    · rw [if_pos hstop]
      exact ⟨[], by rw [s1, List.append_nil], by simp⟩
    · rw [if_neg hstop]
      obtain ⟨a1, hp1, hp2, _⟩ := processFile_append cb mt key toks args
        (should_stop args st).2 f
      by_cases hmr : (processFile cb mt key toks args
          (should_stop args st).2 f).stats.stopped_reason = some "max_results"
      · rw [if_pos hmr]
        exact ⟨a1, by rw [hp1, s1], hp2⟩
      · rw [if_neg hmr]
        obtain ⟨a2, hq1, hq2⟩ := ih (processFile cb mt key toks args (should_stop args st).2 f)
        refine ⟨a1 ++ a2, ?_, ?_⟩
        · rw [hq1, hp1, s1, List.append_assoc]
        · intro m hm
          rcases List.mem_append.mp hm with h1 | h2
          · exact hp2 m h1
          · exact hq2 m h2

theorem applyWalkSkip_reason (st : ScanSt) (ev : WalkEv) :
    (applyWalkSkip st ev).stats.stopped_reason = st.stats.stopped_reason := by
  cases ev <;> simp [applyWalkSkip]

theorem runPass1_inv (cb : Option ProgressCb) (args : SearchArgs) :
    ∀ evs (st : ScanSt), ScanInv args st → st.stats.stopped_reason = none →
      ScanInv args (runPass1 cb args evs st) := by
  intro evs
  induction evs with
  | nil =>
    intro st h _
    simpa [runPass1] using h
  | cons ev rest ih =>
    intro st h hn
    cases ev
    case yieldFile f =>
      simp only [runPass1]
      have hst' : ScanInv args { st with files1 := st.files1 ++ [f] } :=
        scanInv_frame args h rfl rfl rfl rfl
      have hn' : ({ st with files1 := st.files1 ++ [f] } : ScanSt).stats.stopped_reason
          = none := hn
      obtain ⟨hs1, _, _, _, hs5⟩ :=
        should_stop_spec args { st with files1 := st.files1 ++ [f] } hn' hst'
      by_cases hstop : (should_stop args { st with files1 := st.files1 ++ [f] }).1 = true
      · rw [if_pos hstop]
        exact hs1
      · rw [if_neg hstop]
        have hnone := hs5 (by simpa using hstop)
        obtain ⟨hpinv, hpcls⟩ := processFile_inv cb "exact" args.key_exact [] args
          (Or.inl rfl) (should_stop args { st with files1 := st.files1 ++ [f] }).2 f hs1 hnone
        by_cases hmr : (processFile cb "exact" args.key_exact [] args
            (should_stop args { st with files1 := st.files1 ++ [f] }).2 f).stats.stopped_reason
            = some "max_results"
        · rw [if_pos hmr]
          exact hpinv
        · rw [if_neg hmr]
          have hpn : (processFile cb "exact" args.key_exact [] args
              (should_stop args { st with files1 := st.files1 ++ [f] }).2 f).stats.stopped_reason
              = none := by
            rcases hpcls with hx | hx
            · exact hx
            · exact absurd hx hmr
          exact ih _ hpinv hpn
    all_goals
      simp only [runPass1]
      refine ih _ (scanInv_applyWalkSkip args _ h) ?_
      rw [applyWalkSkip_reason]
      exact hn

theorem runPassFiles_inv (cb : Option ProgressCb) (mt key : String) (toks : List String)
    (args : SearchArgs) (hmt : mt = "exact" ∨ mt = "normalized" ∨ mt = "tokens") :
    ∀ fs (st : ScanSt), ScanInv args st → st.stats.stopped_reason = none →
      ScanInv args (runPassFiles cb mt key toks args fs st) := by
  intro fs
  induction fs with
  | nil =>
    intro st h _
    simpa [runPassFiles] using h
  | cons f rest ih =>
    intro st h hn
    simp only [runPassFiles]
    obtain ⟨hs1, _, _, _, hs5⟩ := should_stop_spec args st hn h
    by_cases hstop : (should_stop args st).1 = true
    · rw [if_pos hstop]
      exact hs1
    · rw [if_neg hstop]
      have hnone := hs5 (by simpa using hstop)
      obtain ⟨hpinv, hpcls⟩ := processFile_inv cb mt key toks args hmt
        (should_stop args st).2 f hs1 hnone
      by_cases hmr : (processFile cb mt key toks args
          (should_stop args st).2 f).stats.stopped_reason = some "max_results"
      · rw [if_pos hmr]
        exact hpinv
      · rw [if_neg hmr]
        have hpn : (processFile cb mt key toks args
            (should_stop args st).2 f).stats.stopped_reason = none := by
          rcases hpcls with hx | hx
          · exact hx
          · exact absurd hx hmr
        exact ih _ hpinv hpn

theorem scanFinal_frame (cb : Option ProgressCb) (args : SearchArgs) (st3 : ScanSt) :
    (scanFinal cb args st3).results = st3.results ∧
    (scanFinal cb args st3).stats.stopped_reason = st3.stats.stopped_reason ∧
    (scanFinal cb args st3).stats.hits_found = st3.stats.hits_found := by
  unfold scanFinal
  obtain ⟨m1, _, _, m4, m5, _⟩ := maybe_progress_frame cb args true (elapsedStep args st3)
  obtain ⟨e1, _, _, _, e5, e6, _⟩ := elapsedStep_frame args st3
  exact ⟨m1.trans e1, m4.trans e5, m5.trans e6⟩

theorem scanStage1_inv (cb : Option ProgressCb) (args : SearchArgs)
    (roots : List (String × List FsEntry)) : ScanInv args (scanStage1 cb args roots) := by
  unfold scanStage1
  refine runPass1_inv cb args _ _ ?_ ?_
  · exact scanInv_maybe_progress cb args true (scanInv_init args)
  · obtain ⟨_, _, _, m4, _, _⟩ := maybe_progress_frame cb args true initScanSt
    rw [m4]
    rfl

theorem scanStage2_inv (cb : Option ProgressCb) (args : SearchArgs) (st1 : ScanSt)
    (h : ScanInv args st1) : ScanInv args (scanStage2 cb args st1) := by
  unfold scanStage2
  split
  · next hg =>
    exact runPassFiles_inv cb "normalized" args.key_normalized [] args
      (Or.inr (Or.inl rfl)) st1.files1 st1 h hg.1
  · exact h

theorem scanStage3_inv (cb : Option ProgressCb) (args : SearchArgs) (st2 : ScanSt)
    (h : ScanInv args st2) : ScanInv args (scanStage3 cb args st2) := by
  unfold scanStage3
  split
  · next hg =>
    exact runPassFiles_inv cb "tokens" "" args.tokens args
      (Or.inr (Or.inr rfl)) st2.files1 st2 h hg.1
  · exact h

theorem scanFinal_inv (cb : Option ProgressCb) (args : SearchArgs) (st3 : ScanSt)
    (h : ScanInv args st3) : ScanInv args (scanFinal cb args st3) := by
  unfold scanFinal
  exact scanInv_maybe_progress cb args true (scanInv_elapsedStep args h)

theorem searchStages_inv (cb : Option ProgressCb) (args : SearchArgs)
    (roots : List (String × List FsEntry)) :
    ScanInv args (scanFinal cb args (scanStage3 cb args (scanStage2 cb args
      (scanStage1 cb args roots)))) :=
  scanFinal_inv cb args _ (scanStage3_inv cb args _ (scanStage2_inv cb args _
    (scanStage1_inv cb args roots)))

theorem cap_eq_min (x : ℚ) : (if 1 < x then 1 else x) = min 1 x := by
  rcases le_or_lt x 1 with h | h
  · rw [if_neg (not_lt.mpr h), min_eq_right h]
  · rw [if_pos h, min_eq_left h.le]

theorem compute_score_eq_spec (mt : String) (lt : Str) (comp : Option Str) (ci : Bool)
    (hmt : mt = "exact" ∨ mt = "normalized" ∨ mt = "tokens") :
    compute_score mt lt comp ci = specScore mt lt comp ci := by
  rcases hmt with h | h | h <;> subst h <;>
    simp only [compute_score, specScore, cap_eq_min] <;> norm_num

theorem matchKeyLe_total (a b : Match) : matchKeyLe a b = true ∨ matchKeyLe b a = true := by
  simp only [matchKeyLe]
  by_cases hs : a.score = b.score
  · rw [if_pos hs, if_pos hs.symm]
    by_cases hp : a.path = b.path
    · rw [if_pos hp, if_pos hp.symm]
      simp only [decide_eq_true_eq]
      omega
    · rw [if_neg hp, if_neg (fun h => hp h.symm)]
      simp only [decide_eq_true_eq]
      exact lt_or_gt_of_ne hp
  · rw [if_neg hs, if_neg (fun h => hs h.symm)]
    simp only [decide_eq_true_eq]
    exact (lt_or_gt_of_ne hs).symm

theorem matchKeyLe_trans (a b c : Match) (hab : matchKeyLe a b = true)
    (hbc : matchKeyLe b c = true) : matchKeyLe a c = true := by
  simp only [matchKeyLe, decide_eq_true_eq] at hab hbc ⊢
  by_cases hsab : a.score = b.score <;> by_cases hsbc : b.score = c.score
  · have hsac : a.score = c.score := hsab.trans hsbc
    rw [if_pos hsab] at hab
    rw [if_pos hsbc] at hbc
    rw [if_pos hsac]
    by_cases hpab : a.path = b.path <;> by_cases hpbc : b.path = c.path
    · have hpac : a.path = c.path := hpab.trans hpbc
      rw [if_pos hpab] at hab
      rw [if_pos hpbc] at hbc
      rw [if_pos hpac]
      simp only [decide_eq_true_eq] at hab hbc ⊢
      omega
    · have hpac : ¬ a.path = c.path := by rw [hpab]; exact hpbc
      rw [if_pos hpab] at hab
      rw [if_neg hpbc] at hbc
      rw [if_neg hpac]
      simp only [decide_eq_true_eq] at hbc ⊢
      rw [hpab]
      exact hbc
    · have hpac : ¬ a.path = c.path := by rw [← hpbc]; exact hpab
      rw [if_neg hpab] at hab
      rw [if_pos hpbc] at hbc
      rw [if_neg hpac]
      simp only [decide_eq_true_eq] at hab ⊢
      rw [← hpbc]
      exact hab
    · rw [if_neg hpab] at hab
      rw [if_neg hpbc] at hbc
      simp only [decide_eq_true_eq] at hab hbc
      have hpac : a.path < c.path := lt_trans hab hbc
      rw [if_neg (ne_of_lt hpac)]
      simp only [decide_eq_true_eq]
      exact hpac
  · rw [if_neg hsbc] at hbc
    simp only [decide_eq_true_eq] at hbc
    have hsac : ¬ a.score = c.score := by
      rw [hsab]
      exact fun h => absurd h.symm (ne_of_lt hbc)
    rw [if_neg hsac]
    simp only [decide_eq_true_eq]
    rw [hsab]
    exact hbc
  · rw [if_neg hsab] at hab
    simp only [decide_eq_true_eq] at hab
    have hsac : ¬ a.score = c.score := by
      rw [← hsbc]
      exact fun h => absurd h (ne_of_gt hab)
    rw [if_neg hsac]
    simp only [decide_eq_true_eq]
    rw [← hsbc]
    exact hab
  · rw [if_neg hsab] at hab
    rw [if_neg hsbc] at hbc
    simp only [decide_eq_true_eq] at hab hbc
    have hcc : c.score < a.score := lt_trans hbc hab
    rw [if_neg (fun h => absurd h.symm (ne_of_lt hcc))]
    simp only [decide_eq_true_eq]
    exact hcc

/-- C2: with a result budget of at least 1, the scan returns at most
`max_results` matches, `hits_found` counts exactly the returned matches, and
`stopped_reason` is `"max_results"` precisely when the collected results
filled the budget. -/
theorem search_in_roots_max_results (cb : Option ProgressCb) (args : SearchArgs)
    (roots : List (String × List FsEntry)) (hmr : 1 ≤ args.max_results) :
    (search_in_roots cb args roots).1.length ≤ args.max_results.toNat ∧
    (search_in_roots cb args roots).2.1.hits_found = (search_in_roots cb args roots).1.length ∧
    ((search_in_roots cb args roots).2.1.stopped_reason = some "max_results" ↔
      (search_in_roots cb args roots).1.length = args.max_results.toNat) := by
  have hmrn : mrNat args = args.max_results.toNat := by
    unfold mrNat
    rw [if_neg (by omega)]
  obtain ⟨i1, i2, i3, _, _, _⟩ := searchStages_inv cb args roots
  have hc1 : (search_in_roots cb args roots).1
      = (stableSort matchKeyLe (scanFinal cb args (scanStage3 cb args (scanStage2 cb args
          (scanStage1 cb args roots)))).results).take (mrNat args) := rfl
  have hc2 : (search_in_roots cb args roots).2.1
      = (scanFinal cb args (scanStage3 cb args (scanStage2 cb args
          (scanStage1 cb args roots)))).stats := rfl
  have hsl := (stableSort_perm matchKeyLe (scanFinal cb args (scanStage3 cb args
    (scanStage2 cb args (scanStage1 cb args roots)))).results).length_eq
  have hfl : (search_in_roots cb args roots).1.length
      = (scanFinal cb args (scanStage3 cb args (scanStage2 cb args
          (scanStage1 cb args roots)))).results.length := by
    rw [hc1, List.length_take, hsl]
    omega
  refine ⟨?_, ?_, ?_⟩
  · rw [hfl, ← hmrn]
    exact i1
  · rw [hc2, hfl]
    exact i3
  · rw [hc2, hfl, ← hmrn]
    exact i2

theorem search_in_roots_max_results_witness :
    1 ≤ argsDemo.max_results ∧
    ((search_in_roots none argsDemo rootsTxt).1.length ≤ argsDemo.max_results.toNat ∧
     (search_in_roots none argsDemo rootsTxt).2.1.hits_found
        = (search_in_roots none argsDemo rootsTxt).1.length ∧
     ((search_in_roots none argsDemo rootsTxt).2.1.stopped_reason = some "max_results" ↔
       (search_in_roots none argsDemo rootsTxt).1.length = argsDemo.max_results.toNat)) :=
  ⟨by decide, search_in_roots_max_results none argsDemo rootsTxt (by decide)⟩

/-- C5: every returned match carries the spec's score (pass base plus
component boost, capped at 1) for its pass type, the returned list is sorted
by descending score, then path, then line number, and no two returned
matches share a `(path, line_no)` pair. -/
theorem search_in_roots_scores_order_dedup (cb : Option ProgressCb) (args : SearchArgs)
    (roots : List (String × List FsEntry)) :
    (search_in_roots cb args roots).1.Pairwise (fun a b => matchKeyLe a b = true) ∧
    ((search_in_roots cb args roots).1.map (fun m => (m.path, m.line_no))).Nodup ∧
    ∀ m ∈ (search_in_roots cb args roots).1,
      (m.match_type = "exact" ∨ m.match_type = "normalized" ∨ m.match_type = "tokens") ∧
      m.score = specScore m.match_type m.line_text.data (args.component.map String.data)
        args.case_insensitive := by
  obtain ⟨_, _, _, i4, i5, _⟩ := searchStages_inv cb args roots
  have hc1 : (search_in_roots cb args roots).1
      = (stableSort matchKeyLe (scanFinal cb args (scanStage3 cb args (scanStage2 cb args
          (scanStage1 cb args roots)))).results).take (mrNat args) := rfl
  refine ⟨?_, ?_, ?_⟩
  · rw [hc1]
    exact List.Pairwise.sublist (List.take_sublist _ _)
      (pairwise_stableSort matchKeyLe matchKeyLe_trans matchKeyLe_total _)
  · rw [hc1]
    have hperm := ((stableSort_perm matchKeyLe (scanFinal cb args (scanStage3 cb args
      (scanStage2 cb args (scanStage1 cb args roots)))).results).map
        (fun m => (m.path, m.line_no)))
    have hnd := hperm.nodup_iff.mpr i5
    have hsub := (List.take_sublist (mrNat args) (stableSort matchKeyLe (scanFinal cb args
      (scanStage3 cb args (scanStage2 cb args
        (scanStage1 cb args roots)))).results)).map (fun m => (m.path, m.line_no))
    exact List.Nodup.sublist hsub hnd
  · intro m hm
    rw [hc1] at hm
    have hm2 := List.mem_of_mem_take hm
    have hm3 := (stableSort_perm matchKeyLe (scanFinal cb args (scanStage3 cb args
      (scanStage2 cb args (scanStage1 cb args roots)))).results).mem_iff.mp hm2
    obtain ⟨hsc, hty⟩ := i4 m hm3
    refine ⟨hty, ?_⟩
    rw [hsc]
    exact compute_score_eq_spec _ _ _ _ hty

/-- C6: the tokens pass only ever matches with at least two significant
tokens, and the three passes contribute to the collected results in the
fixed order exact, normalized, tokens, each later pass running only if no
stop reason is set and the budget is not yet filled. -/
theorem search_in_roots_pass_order (cb : Option ProgressCb) (args : SearchArgs)
    (roots : List (String × List FsEntry)) :
    (∀ line toks ci, tokens_match line toks ci = true → 2 ≤ toks.length) ∧
    ∃ r1 r2 r3 : List Match,
      (scanStage1 cb args roots).results = r1 ∧
      (scanStage2 cb args (scanStage1 cb args roots)).results = r1 ++ r2 ∧
      (scanStage3 cb args (scanStage2 cb args (scanStage1 cb args roots))).results
        = r1 ++ r2 ++ r3 ∧
      (search_in_roots cb args roots).1
        = (stableSort matchKeyLe (r1 ++ r2 ++ r3)).take (mrNat args) ∧
      (∀ m ∈ r1, m.match_type = "exact") ∧
      (∀ m ∈ r2, m.match_type = "normalized") ∧
      (∀ m ∈ r3, m.match_type = "tokens") ∧
      (¬((scanStage1 cb args roots).stats.stopped_reason = none ∧
          (scanStage1 cb args roots).results.length < mrNat args) → r2 = []) ∧
      (¬((scanStage2 cb args (scanStage1 cb args roots)).stats.stopped_reason = none ∧
          (scanStage2 cb args (scanStage1 cb args roots)).results.length < mrNat args) →
        r3 = []) := by
  constructor
  · intro line toks ci htm
    by_contra hlt
    have hlt2 : toks.length < 2 := by omega
    have hcond : (toks.isEmpty || decide (toks.length < 2)) = true := by
      simp [hlt2]
    unfold tokens_match at htm
    rw [if_pos hcond] at htm
    exact Bool.false_ne_true htm
  · obtain ⟨a1, ha1, ha1t⟩ := runPass1_append cb args
      (safe_walk_files roots args.include_exts args.exclude_dir_names
        args.follow_symlinks args.max_file_bytes)
      (maybe_progress cb args true initScanSt)
    obtain ⟨mp1, _⟩ := maybe_progress_frame cb args true initScanSt
    have hs1 : (scanStage1 cb args roots).results = a1 := by
      unfold scanStage1
      rw [ha1, mp1]
      rfl
    by_cases hg2 : (scanStage1 cb args roots).stats.stopped_reason = none ∧
        (scanStage1 cb args roots).results.length < mrNat args
    · obtain ⟨a2, ha2, ha2t⟩ := runPassFiles_append cb "normalized" args.key_normalized [] args
        (scanStage1 cb args roots).files1 (scanStage1 cb args roots)
      have hs2 : (scanStage2 cb args (scanStage1 cb args roots)).results = a1 ++ a2 := by
        unfold scanStage2
        rw [if_pos hg2, ha2, hs1]
      by_cases hg3 : (scanStage2 cb args (scanStage1 cb args roots)).stats.stopped_reason
          = none ∧
          (scanStage2 cb args (scanStage1 cb args roots)).results.length < mrNat args
      · obtain ⟨a3, ha3, ha3t⟩ := runPassFiles_append cb "tokens" "" args.tokens args
          (scanStage2 cb args (scanStage1 cb args roots)).files1
          (scanStage2 cb args (scanStage1 cb args roots))
        have hs3 : (scanStage3 cb args (scanStage2 cb args (scanStage1 cb args roots))).results
            = a1 ++ a2 ++ a3 := by
          unfold scanStage3
          rw [if_pos hg3, ha3, hs2]
        refine ⟨a1, a2, a3, hs1, hs2, hs3, ?_, ha1t, ha2t, ha3t,
          fun hng => absurd hg2 hng, fun hng => absurd hg3 hng⟩
        have hc1 : (search_in_roots cb args roots).1
            = (stableSort matchKeyLe (scanFinal cb args (scanStage3 cb args (scanStage2 cb args
                (scanStage1 cb args roots)))).results).take (mrNat args) := rfl
        obtain ⟨f1, _, _⟩ := scanFinal_frame cb args
          (scanStage3 cb args (scanStage2 cb args (scanStage1 cb args roots)))
        rw [hc1, f1, hs3]
      · have hs3 : (scanStage3 cb args (scanStage2 cb args (scanStage1 cb args roots))).results
            = a1 ++ a2 ++ [] := by
          unfold scanStage3
          rw [if_neg hg3, hs2, List.append_nil]
        refine ⟨a1, a2, [], hs1, hs2, hs3, ?_, ha1t, ha2t, by simp,
          fun hng => absurd hg2 hng, fun _ => rfl⟩
        have hc1 : (search_in_roots cb args roots).1
            = (stableSort matchKeyLe (scanFinal cb args (scanStage3 cb args (scanStage2 cb args
                (scanStage1 cb args roots)))).results).take (mrNat args) := rfl
        obtain ⟨f1, _, _⟩ := scanFinal_frame cb args
          (scanStage3 cb args (scanStage2 cb args (scanStage1 cb args roots)))
        rw [hc1, f1, hs3]
    · have hs2 : (scanStage2 cb args (scanStage1 cb args roots)).results = a1 ++ [] := by
        unfold scanStage2
        rw [if_neg hg2, hs1, List.append_nil]
      by_cases hg3 : (scanStage2 cb args (scanStage1 cb args roots)).stats.stopped_reason
          = none ∧
          (scanStage2 cb args (scanStage1 cb args roots)).results.length < mrNat args
      · obtain ⟨a3, ha3, ha3t⟩ := runPassFiles_append cb "tokens" "" args.tokens args
          (scanStage2 cb args (scanStage1 cb args roots)).files1
          (scanStage2 cb args (scanStage1 cb args roots))
        have hs3 : (scanStage3 cb args (scanStage2 cb args (scanStage1 cb args roots))).results
            = a1 ++ [] ++ a3 := by
          unfold scanStage3
          rw [if_pos hg3, ha3, hs2]
        refine ⟨a1, [], a3, hs1, hs2, hs3, ?_, ha1t, by simp, ha3t,
          fun _ => rfl, fun hng => absurd hg3 hng⟩
        have hc1 : (search_in_roots cb args roots).1
            = (stableSort matchKeyLe (scanFinal cb args (scanStage3 cb args (scanStage2 cb args
                (scanStage1 cb args roots)))).results).take (mrNat args) := rfl
        obtain ⟨f1, _, _⟩ := scanFinal_frame cb args
          (scanStage3 cb args (scanStage2 cb args (scanStage1 cb args roots)))
        rw [hc1, f1, hs3]
      · have hs3 : (scanStage3 cb args (scanStage2 cb args (scanStage1 cb args roots))).results
            = a1 ++ [] ++ [] := by
          unfold scanStage3
          rw [if_neg hg3, hs2]
          simp
        refine ⟨a1, [], [], hs1, hs2, hs3, ?_, ha1t, by simp, by simp,
          fun _ => rfl, fun _ => rfl⟩
        have hc1 : (search_in_roots cb args roots).1
            = (stableSort matchKeyLe (scanFinal cb args (scanStage3 cb args (scanStage2 cb args
                (scanStage1 cb args roots)))).results).take (mrNat args) := rfl
        obtain ⟨f1, _, _⟩ := scanFinal_frame cb args
          (scanStage3 cb args (scanStage2 cb args (scanStage1 cb args roots)))
        rw [hc1, f1, hs3]

theorem dirEvent_length (excl : List String) (follow : Bool) (name : String) (isLink : Bool)
    (sub : List FsEntry) : (dirEvent excl follow (.dir name isLink sub)).length = 1 := by
  simp only [dirEvent]
  split
  · rfl
  · split <;> rfl

theorem fileEvent_length (follow : Bool) (mb : Nat) (extsL : List Str) (dp : String)
    (name : String) (isLink statOk isFile : Bool) (size : Nat) (readable : Bool)
    (lines : List String) :
    (fileEvent follow mb extsL dp (.file name isLink statOk isFile size readable lines)).length
      = 1 := by
  simp only [fileEvent]
  split
  · rfl
  · split
    · rfl
    · split
      · rfl
      · split
        · rfl
        · split <;> rfl

theorem dirFileEvents_length (excl : List String) (follow : Bool) (mb : Nat) (extsL : List Str)
    (dp : String) : ∀ entries : List FsEntry,
    ((entries.filter isDirEntry).flatMap (dirEvent excl follow)).length +
    ((entries.filter (fun e => !isDirEntry e)).flatMap (fileEvent follow mb extsL dp)).length
      = entries.length := by
  intro entries
  induction entries with
  | nil => simp
  | cons e rest ih =>
    cases e with
    | file name isLink statOk isFile size readable lines =>
      show ((List.filter isDirEntry rest).flatMap (dirEvent excl follow)).length +
        ((FsEntry.file name isLink statOk isFile size readable lines ::
          List.filter (fun e => !isDirEntry e) rest).flatMap
            (fileEvent follow mb extsL dp)).length = rest.length + 1
      rw [List.flatMap_cons, List.length_append, fileEvent_length]
      omega
    | dir name isLink sub =>
      show ((FsEntry.dir name isLink sub :: List.filter isDirEntry rest).flatMap
          (dirEvent excl follow)).length +
        ((List.filter (fun e => !isDirEntry e) rest).flatMap
          (fileEvent follow mb extsL dp)).length = rest.length + 1
      rw [List.flatMap_cons, List.length_append, dirEvent_length]
      omega

mutual

theorem walkDir_length (excl : List String) (follow : Bool) (mb : Nat) (extsL : List Str)
    (dp : String) (entries : List FsEntry) :
    (walkDir excl follow mb extsL dp entries).length = visitedCount excl follow entries := by
  simp only [walkDir, visitedCount, List.length_append]
  rw [walkSubdirs_length excl follow mb extsL dp entries]
  have := dirFileEvents_length excl follow mb extsL dp entries
  omega
termination_by sizeOf entries + 1
decreasing_by all_goals simp_wf

theorem walkSubdirs_length (excl : List String) (follow : Bool) (mb : Nat) (extsL : List Str)
    (dp : String) (l : List FsEntry) :
    (walkSubdirs excl follow mb extsL dp l).length = visitedSub excl follow l := by
  match l with
  | [] => simp [walkSubdirs, visitedSub]
  | .file name isLink statOk isFile size readable lines :: rest =>
    simp only [walkSubdirs, visitedSub, List.nil_append]
    rw [walkSubdirs_length excl follow mb extsL dp rest]
    omega
  | .dir name isLink sub :: rest =>
    simp only [walkSubdirs, visitedSub]
    by_cases hk : dirKept excl follow (.dir name isLink sub) = true
    · rw [if_pos hk, if_pos hk, List.length_append,
        walkDir_length excl follow mb extsL (dp ++ "/" ++ name) sub,
        walkSubdirs_length excl follow mb extsL dp rest]
    · rw [if_neg hk, if_neg hk, List.nil_append,
        walkSubdirs_length excl follow mb extsL dp rest]
      omega
termination_by sizeOf l
decreasing_by all_goals simp_wf <;> omega

end

theorem safe_walk_files_length (roots : List (String × List FsEntry))
    (include_exts exclude : List String) (follow : Bool) (mb : Nat) :
    (safe_walk_files roots include_exts exclude follow mb).length
      = (roots.map (fun r => visitedCount exclude follow r.2)).sum := by
  unfold safe_walk_files
  rw [List.length_flatMap]
  apply congrArg
  apply List.map_congr_left
  intro r _
  exact walkDir_length exclude follow mb (include_exts.map (fun e => pyLower e.data)) r.1 r.2

theorem walkEv_category (ev : WalkEv) :
    (isTracked ev).toNat + (isYieldEv ev).toNat + (isUntracked ev).toNat = 1 := by
  cases ev <;> rfl

theorem applyWalkSkip_accounting (st : ScanSt) (ev : WalkEv) :
    sumSkips (applyWalkSkip st ev).stats = sumSkips st.stats + (isTracked ev).toNat ∧
    (applyWalkSkip st ev).stats.files_scanned = st.stats.files_scanned := by
  cases ev <;> constructor <;> simp [applyWalkSkip, sumSkips, isTracked] <;> omega

theorem sumSkips_set_files_scanned (s : ScanStats) (n : Nat) :
    sumSkips { s with files_scanned := n } = sumSkips s := rfl

theorem maybe_progress_skips (cb : Option ProgressCb) (args : SearchArgs) (force : Bool)
    (st : ScanSt) : sumSkips (maybe_progress cb args force st).stats = sumSkips st.stats := by
  cases cb with
  | none => simp [maybe_progress, elapsedStep, sumSkips]
  | some f =>
    simp only [maybe_progress, elapsedStep]
    split <;> simp [sumSkips]

theorem lineLoop_skips (mt key : String) (toks : List String) (args : SearchArgs)
    (path : String) : ∀ ls (st : ScanSt),
    (lineLoop mt key toks args path ls st).stats.files_scanned = st.stats.files_scanned ∧
    sumSkips (lineLoop mt key toks args path ls st).stats = sumSkips st.stats := by
  intro ls
  induction ls with
  | nil =>
    intro st
    exact ⟨rfl, rfl⟩
  | cons p rest ih =>
    intro st
    obtain ⟨ln, text⟩ := p
    by_cases hok : passLineOk mt key toks args.case_insensitive text = true
    · rcases add_match_cases st.results st.seen path ln text mt
          (compute_score mt text.data (args.component.map String.data) args.case_insensitive)
        with ⟨hseen, hadd⟩ | ⟨hseen, hadd⟩
      · simp only [lineLoop, hok, Bool.not_true, Bool.false_eq_true, if_false, hadd]
        have hlt : ¬ st.results.length < st.results.length := lt_irrefl _
        rw [if_neg hlt]
        by_cases hstop : mrNat args ≤ st.results.length
        · rw [if_pos hstop]
          exact ⟨by simp [setReason], by simp [setReason, sumSkips]⟩
        · rw [if_neg hstop]
          obtain ⟨h1, h2⟩ := ih { st with results := st.results, seen := st.seen, stats := st.stats }
          exact ⟨by simpa using h1, by simpa using h2⟩
      · simp only [lineLoop, hok, Bool.not_true, Bool.false_eq_true, if_false, hadd]
        have hlt : st.results.length < (st.results ++
            [(⟨path, ln, text, mt, compute_score mt text.data
              (args.component.map String.data) args.case_insensitive⟩ : Match)]).length := by
          simp
        rw [if_pos hlt]
        by_cases hstop : mrNat args ≤ (st.results ++
            [(⟨path, ln, text, mt, compute_score mt text.data
              (args.component.map String.data) args.case_insensitive⟩ : Match)]).length
        · rw [if_pos hstop]
          exact ⟨by simp [setReason], by simp [setReason, sumSkips]⟩
        · rw [if_neg hstop]
          obtain ⟨h1, h2⟩ := ih _
          exact ⟨by simpa using h1, by simpa [sumSkips] using h2⟩
    · have hok' : passLineOk mt key toks args.case_insensitive text = false := by
        simpa using hok
      simp only [lineLoop, hok', Bool.not_false, if_true]
      exact ih st

theorem processFile_accounting (cb : Option ProgressCb) (mt key : String)
    (toks : List String) (args : SearchArgs) (st : ScanSt) (f : PyFile) :
    (processFile cb mt key toks args st f).stats.files_scanned
      = st.stats.files_scanned + 1 ∧
    sumSkips (processFile cb mt key toks args st f).stats
      = sumSkips st.stats + (if f.readable = true then 0 else 1) := by
  unfold processFile
  by_cases hr : f.readable = true
  · rw [if_pos hr, if_pos hr]
    obtain ⟨hl1, hl2⟩ := lineLoop_skips mt key toks args f.path (enum1 f.lines) st
    obtain ⟨_, _, _, _, _, m6⟩ := maybe_progress_frame cb args false
      { lineLoop mt key toks args f.path (enum1 f.lines) st with stats :=
        { (lineLoop mt key toks args f.path (enum1 f.lines) st).stats with files_scanned :=
          (lineLoop mt key toks args f.path (enum1 f.lines) st).stats.files_scanned + 1 } }
    have hms := maybe_progress_skips cb args false
      { lineLoop mt key toks args f.path (enum1 f.lines) st with stats :=
        { (lineLoop mt key toks args f.path (enum1 f.lines) st).stats with files_scanned :=
          (lineLoop mt key toks args f.path (enum1 f.lines) st).stats.files_scanned + 1 } }
    constructor
    · rw [m6]
      dsimp only
      rw [hl1]
    · rw [hms, sumSkips_set_files_scanned, hl2]
      omega
  · rw [if_neg hr, if_neg hr]
    obtain ⟨_, _, _, _, _, m6⟩ := maybe_progress_frame cb args false
      { { st with stats :=
          { st.stats with files_skipped_unreadable := st.stats.files_skipped_unreadable + 1 } }
        with stats :=
        { ({ st with stats := { st.stats with files_skipped_unreadable :=
            st.stats.files_skipped_unreadable + 1 } } : ScanSt).stats with files_scanned :=
          ({ st with stats := { st.stats with files_skipped_unreadable :=
            st.stats.files_skipped_unreadable + 1 } } : ScanSt).stats.files_scanned + 1 } }
    have hms := maybe_progress_skips cb args false
      { { st with stats :=
          { st.stats with files_skipped_unreadable := st.stats.files_skipped_unreadable + 1 } }
        with stats :=
        { ({ st with stats := { st.stats with files_skipped_unreadable :=
            st.stats.files_skipped_unreadable + 1 } } : ScanSt).stats with files_scanned :=
          ({ st with stats := { st.stats with files_skipped_unreadable :=
            st.stats.files_skipped_unreadable + 1 } } : ScanSt).stats.files_scanned + 1 } }
    constructor
    · rw [m6]
    · rw [hms, sumSkips_set_files_scanned]
      simp [sumSkips]
      omega

/-- C8 (amended): the walker produces exactly one outcome per filesystem
entry it visits; every outcome is exactly one of a counter-tracked skip, a
yielded file, or a silently passed entry (kept directory, non-regular file,
extension mismatch); consuming a skip outcome adds its tracked count (1 or
0) to the skip counters and never touches `files_scanned`; and scanning one
yielded file in one pass adds exactly 1 to `files_scanned` (plus one
unreadable skip when the open fails).  `files_scanned` thus counts per-pass
scan events, and untracked outcomes appear in no statistic. -/
theorem scan_accounting (roots : List (String × List FsEntry))
    (include_exts exclude : List String) (follow : Bool) (mb : Nat) :
    (safe_walk_files roots include_exts exclude follow mb).length
      = (roots.map (fun r => visitedCount exclude follow r.2)).sum ∧
    (∀ ev : WalkEv,
      (isTracked ev).toNat + (isYieldEv ev).toNat + (isUntracked ev).toNat = 1) ∧
    (∀ (st : ScanSt) (ev : WalkEv),
      sumSkips (applyWalkSkip st ev).stats = sumSkips st.stats + (isTracked ev).toNat ∧
      (applyWalkSkip st ev).stats.files_scanned = st.stats.files_scanned) ∧
    (∀ (cb : Option ProgressCb) (mt key : String) (toks : List String) (args : SearchArgs)
        (st : ScanSt) (f : PyFile),
      (processFile cb mt key toks args st f).stats.files_scanned
        = st.stats.files_scanned + 1 ∧
      sumSkips (processFile cb mt key toks args st f).stats
        = sumSkips st.stats + (if f.readable = true then 0 else 1)) :=
  ⟨safe_walk_files_length roots include_exts exclude follow mb,
   walkEv_category,
   applyWalkSkip_accounting,
   fun cb mt key toks args st f => processFile_accounting cb mt key toks args st f⟩

/-- C8 (counterexample): a scan over one root holding a single `.txt` file
visits one entry, yet the returned stats count it nowhere: `files_scanned`
and all four `files_skipped` counters are 0. -/
theorem scan_accounting_counterexample :
    visitedCount [] false [FsEntry.file "a.txt" false true true 1 true ["hello"]] = 1 ∧
    (search_in_roots none argsDemo rootsTxt).2.1.files_scanned = 0 ∧
    sumSkips (search_in_roots none argsDemo rootsTxt).2.1 = 0 := by
  have hev : safe_walk_files rootsTxt argsDemo.include_exts argsDemo.exclude_dir_names
      argsDemo.follow_symlinks argsDemo.max_file_bytes = [WalkEv.dropExt] := by
    simp [safe_walk_files, rootsTxt, argsDemo, walkDir, walkSubdirs, dirEvent, fileEvent,
      isDirEntry, pyEndsWith, pyLower, pyIn]
  refine ⟨by simp [visitedCount, visitedSub], ?_, ?_⟩ <;>
  · simp only [search_in_roots, scanStage1, hev]
    decide

theorem maybe_progress_cb (f g : ProgressCb) (args : SearchArgs) (force : Bool) (st : ScanSt) :
    maybe_progress (some f) args force st = maybe_progress (some g) args force st := by
  simp only [maybe_progress]

theorem processFile_cb (f g : ProgressCb) (mt key : String) (toks : List String)
    (args : SearchArgs) (st : ScanSt) (pf : PyFile) :
    processFile (some f) mt key toks args st pf
      = processFile (some g) mt key toks args st pf := by
  unfold processFile
  rw [maybe_progress_cb f g]

theorem runPass1_cb (f g : ProgressCb) (args : SearchArgs) :
    ∀ evs (st : ScanSt), runPass1 (some f) args evs st = runPass1 (some g) args evs st := by
  intro evs
  induction evs with
  | nil => intro st; rfl
  | cons ev rest ih =>
    intro st
    cases ev with
    | yieldFile pf =>
      simp only [runPass1]
      rw [processFile_cb f g, ih]
    | skipExcludedDir => simp only [runPass1]; exact ih _
    | skipSymlinkDir => simp only [runPass1]; exact ih _
    | keptDir => simp only [runPass1]; exact ih _
    | skipSymlinkFile => simp only [runPass1]; exact ih _
    | skipStatFail => simp only [runPass1]; exact ih _
    | dropNotFile => simp only [runPass1]; exact ih _
    | skipTooBig => simp only [runPass1]; exact ih _
    | dropExt => simp only [runPass1]; exact ih _

theorem runPassFiles_cb (f g : ProgressCb) (mt key : String) (toks : List String)
    (args : SearchArgs) :
    ∀ fs (st : ScanSt), runPassFiles (some f) mt key toks args fs st
      = runPassFiles (some g) mt key toks args fs st := by
  intro fs
  induction fs with
  | nil => intro st; rfl
  | cons pf rest ih =>
    intro st
    simp only [runPassFiles]
    rw [processFile_cb f g, ih]

theorem search_in_roots_cb_eq (f g : ProgressCb) (args : SearchArgs)
    (roots : List (String × List FsEntry)) :
    search_in_roots (some f) args roots = search_in_roots (some g) args roots := by
  have h1 : scanStage1 (some f) args roots = scanStage1 (some g) args roots := by
    unfold scanStage1
    rw [maybe_progress_cb f g, runPass1_cb f g]
  have h2 : ∀ st : ScanSt, scanStage2 (some f) args st = scanStage2 (some g) args st := by
    intro st
    unfold scanStage2
    by_cases hc : st.stats.stopped_reason = none ∧ st.results.length < mrNat args
    · rw [if_pos hc, if_pos hc, runPassFiles_cb f g]
    · rw [if_neg hc, if_neg hc]
  have h3 : ∀ st : ScanSt, scanStage3 (some f) args st = scanStage3 (some g) args st := by
    intro st
    unfold scanStage3
    by_cases hc : st.stats.stopped_reason = none ∧ st.results.length < mrNat args
    · rw [if_pos hc, if_pos hc, runPassFiles_cb f g]
    · rw [if_neg hc, if_neg hc]
  have h4 : ∀ st : ScanSt, scanFinal (some f) args st = scanFinal (some g) args st := by
    intro st
    unfold scanFinal
    rw [maybe_progress_cb f g]
  simp only [search_in_roots]
  rw [h1, h2, h3, h4]

theorem snaps_set_stats (st : ScanSt) (s : ScanStats) :
    ({ st with stats := s } : ScanSt).snaps = st.snaps := rfl

theorem lineLoop_snaps (mt key : String) (toks : List String) (args : SearchArgs)
    (path : String) (ls : List (Nat × String)) (st : ScanSt) :
    (lineLoop mt key toks args path ls st).snaps = st.snaps := by
  obtain ⟨_, _, _, h3, _⟩ := lineLoop_append mt key toks args path ls st
  exact h3

theorem maybe_progress_snaps_due (cb : Option ProgressCb) (args : SearchArgs) (st : ScanSt) :
    ∃ l, (maybe_progress cb args false st).snaps = st.snaps ++ l ∧
      ∀ s ∈ l, s.files_scanned % pevN args = 0 := by
  cases cb with
  | none =>
    exact ⟨[], by simp [maybe_progress, elapsedStep], by simp⟩
  | some f =>
    obtain ⟨_, _, _, _, _, _, e7⟩ := elapsedStep_frame args st
    by_cases hd : st.stats.files_scanned % pevN args = 0
    · have hd' : (st.stats.files_scanned % pevN args == 0) = true := by simp [hd]
      refine ⟨[(elapsedStep args st).stats], ?_, ?_⟩
      · simp [maybe_progress, elapsedStep, hd']
      · intro s hs
        simp only [List.mem_singleton] at hs
        subst hs
        rw [e7]
        exact hd
    · have hd' : (st.stats.files_scanned % pevN args == 0) = false := by simp [hd]
      refine ⟨[], ?_, by simp⟩
      simp [maybe_progress, elapsedStep, hd']

theorem processFile_snaps_due (cb : Option ProgressCb) (mt key : String) (toks : List String)
    (args : SearchArgs) (st : ScanSt) (pf : PyFile) :
    ∃ l, (processFile cb mt key toks args st pf).snaps = st.snaps ++ l ∧
      ∀ s ∈ l, s.files_scanned % pevN args = 0 := by
  unfold processFile
  obtain ⟨l, hl, hdue⟩ := maybe_progress_snaps_due cb args
    { (if pf.readable then lineLoop mt key toks args pf.path (enum1 pf.lines) st
       else { st with stats :=
        { st.stats with files_skipped_unreadable := st.stats.files_skipped_unreadable + 1 } }) with
      stats := { (if pf.readable then lineLoop mt key toks args pf.path (enum1 pf.lines) st
       else { st with stats :=
        { st.stats with files_skipped_unreadable := st.stats.files_skipped_unreadable + 1 } }).stats
        with files_scanned := (if pf.readable then
          lineLoop mt key toks args pf.path (enum1 pf.lines) st
       else { st with stats :=
        { st.stats with files_skipped_unreadable := st.stats.files_skipped_unreadable + 1 } }).stats.files_scanned + 1 } }
  refine ⟨l, ?_, hdue⟩
  rw [hl, snaps_set_stats]
  by_cases hr : pf.readable = true
  · rw [if_pos hr, lineLoop_snaps]
  · rw [if_neg hr, snaps_set_stats]

theorem runPass1_snaps_due (cb : Option ProgressCb) (args : SearchArgs) :
    ∀ evs (st : ScanSt), ∃ l, (runPass1 cb args evs st).snaps = st.snaps ++ l ∧
      ∀ s ∈ l, s.files_scanned % pevN args = 0 := by
  intro evs
  induction evs with
  | nil =>
    intro st
    exact ⟨[], by simp [runPass1], by simp⟩
  | cons ev rest ih =>
    intro st
    cases ev with
    | yieldFile pf =>
      simp only [runPass1]
      obtain ⟨_, _, _, s4⟩ := should_stop_frame args { st with files1 := st.files1 ++ [pf] }
      by_cases hstop : (should_stop args { st with files1 := st.files1 ++ [pf] }).1 = true
      · rw [if_pos hstop]
        exact ⟨[], by rw [s4]; simp, by simp⟩
      · rw [if_neg hstop]
        obtain ⟨l1, hp1, hd1⟩ := processFile_snaps_due cb "exact" args.key_exact [] args
          (should_stop args { st with files1 := st.files1 ++ [pf] }).2 pf
        by_cases hmr : (processFile cb "exact" args.key_exact [] args
            (should_stop args { st with files1 := st.files1 ++ [pf] }).2 pf).stats.stopped_reason
            = some "max_results"
        · rw [if_pos hmr]
          exact ⟨l1, by rw [hp1, s4], hd1⟩
        · rw [if_neg hmr]
          obtain ⟨l2, hq1, hd2⟩ := ih (processFile cb "exact" args.key_exact [] args
            (should_stop args { st with files1 := st.files1 ++ [pf] }).2 pf)
          refine ⟨l1 ++ l2, ?_, ?_⟩
          · rw [hq1, hp1, s4]
            simp [List.append_assoc]
          · intro s hs
            rcases List.mem_append.mp hs with h | h
            exacts [hd1 s h, hd2 s h]
    | skipExcludedDir =>
      simp only [runPass1]
      obtain ⟨l, h1, h2⟩ := ih (applyWalkSkip st .skipExcludedDir)
      exact ⟨l, by rw [h1]; simp [applyWalkSkip], h2⟩
    | skipSymlinkDir =>
      simp only [runPass1]
      obtain ⟨l, h1, h2⟩ := ih (applyWalkSkip st .skipSymlinkDir)
      exact ⟨l, by rw [h1]; simp [applyWalkSkip], h2⟩
    | keptDir =>
      simp only [runPass1]
      obtain ⟨l, h1, h2⟩ := ih (applyWalkSkip st .keptDir)
      exact ⟨l, by rw [h1]; simp [applyWalkSkip], h2⟩
    | skipSymlinkFile =>
      simp only [runPass1]
      obtain ⟨l, h1, h2⟩ := ih (applyWalkSkip st .skipSymlinkFile)
      exact ⟨l, by rw [h1]; simp [applyWalkSkip], h2⟩
    | skipStatFail =>
      simp only [runPass1]
      obtain ⟨l, h1, h2⟩ := ih (applyWalkSkip st .skipStatFail)
      exact ⟨l, by rw [h1]; simp [applyWalkSkip], h2⟩
    | dropNotFile =>
      simp only [runPass1]
      obtain ⟨l, h1, h2⟩ := ih (applyWalkSkip st .dropNotFile)
      exact ⟨l, by rw [h1]; simp [applyWalkSkip], h2⟩
    | skipTooBig =>
      simp only [runPass1]
      obtain ⟨l, h1, h2⟩ := ih (applyWalkSkip st .skipTooBig)
      exact ⟨l, by rw [h1]; simp [applyWalkSkip], h2⟩
    | dropExt =>
      simp only [runPass1]
      obtain ⟨l, h1, h2⟩ := ih (applyWalkSkip st .dropExt)
      exact ⟨l, by rw [h1]; simp [applyWalkSkip], h2⟩

theorem runPassFiles_snaps_due (cb : Option ProgressCb) (mt key : String)
    (toks : List String) (args : SearchArgs) :
    ∀ fs (st : ScanSt), ∃ l, (runPassFiles cb mt key toks args fs st).snaps = st.snaps ++ l ∧
      ∀ s ∈ l, s.files_scanned % pevN args = 0 := by
  intro fs
  induction fs with
  | nil =>
    intro st
    exact ⟨[], by simp [runPassFiles], by simp⟩
  | cons pf rest ih =>
    intro st
    simp only [runPassFiles]
    obtain ⟨_, _, _, s4⟩ := should_stop_frame args st
    by_cases hstop : (should_stop args st).1 = true
    · rw [if_pos hstop]
      exact ⟨[], by rw [s4]; simp, by simp⟩
    · rw [if_neg hstop]
      obtain ⟨l1, hp1, hd1⟩ := processFile_snaps_due cb mt key toks args
        (should_stop args st).2 pf
      by_cases hmr : (processFile cb mt key toks args
          (should_stop args st).2 pf).stats.stopped_reason = some "max_results"
      · rw [if_pos hmr]
        exact ⟨l1, by rw [hp1, s4], hd1⟩
      · rw [if_neg hmr]
        obtain ⟨l2, hq1, hd2⟩ := ih (processFile cb mt key toks args (should_stop args st).2 pf)
        refine ⟨l1 ++ l2, ?_, ?_⟩
        · rw [hq1, hp1, s4]
          simp [List.append_assoc]
        · intro s hs
          rcases List.mem_append.mp hs with h | h
          exacts [hd1 s h, hd2 s h]

theorem scanStage2_snaps_due (cb : Option ProgressCb) (args : SearchArgs) (st1 : ScanSt) :
    ∃ l, (scanStage2 cb args st1).snaps = st1.snaps ++ l ∧
      ∀ s ∈ l, s.files_scanned % pevN args = 0 := by
  unfold scanStage2
  split
  · exact runPassFiles_snaps_due cb "normalized" args.key_normalized [] args st1.files1 st1
  · exact ⟨[], by simp, by simp⟩

theorem scanStage3_snaps_due (cb : Option ProgressCb) (args : SearchArgs) (st2 : ScanSt) :
    ∃ l, (scanStage3 cb args st2).snaps = st2.snaps ++ l ∧
      ∀ s ∈ l, s.files_scanned % pevN args = 0 := by
  unfold scanStage3
  split
  · exact runPassFiles_snaps_due cb "tokens" "" args.tokens args st2.files1 st2
  · exact ⟨[], by simp, by simp⟩

theorem scanFinal_snaps (f : ProgressCb) (args : SearchArgs) (st3 : ScanSt) :
    (scanFinal (some f) args st3).snaps
      = st3.snaps ++ [(scanFinal (some f) args st3).stats] := rfl

theorem maybe_progress_start_snap (f : ProgressCb) (args : SearchArgs) :
    (maybe_progress (some f) args true initScanSt).snaps
      = [{ new_scan_stats with elapsed_seconds := args.clock 0 }] := rfl

/-- C9: the scan's entire output is unchanged when the progress callback is
replaced by any other callback, because the callback only ever receives a
value snapshot of the stats and its result is discarded (so callback-side
mutation, return values and raising are all invisible to the scan); the
first snapshot handed to the callback is the scan-start stats, the last is
the returned final stats, and every snapshot in between was due on the
`progress_every_n_files` period. -/
theorem search_in_roots_callback (f g : ProgressCb) (args : SearchArgs)
    (roots : List (String × List FsEntry)) :
    search_in_roots (some f) args roots = search_in_roots (some g) args roots ∧
    (search_in_roots (some f) args roots).2.2.head?
      = some { new_scan_stats with elapsed_seconds := args.clock 0 } ∧
    (search_in_roots (some f) args roots).2.2.getLast?
      = some (search_in_roots (some f) args roots).2.1 ∧
    ∀ s ∈ (search_in_roots (some f) args roots).2.2.dropLast,
      s.files_scanned % pevN args = 0 := by
  obtain ⟨l1, hl1, hd1⟩ := runPass1_snaps_due (some f) args
    (safe_walk_files roots args.include_exts args.exclude_dir_names
      args.follow_symlinks args.max_file_bytes)
    (maybe_progress (some f) args true initScanSt)
  obtain ⟨l2, hl2, hd2⟩ := scanStage2_snaps_due (some f) args (scanStage1 (some f) args roots)
  obtain ⟨l3, hl3, hd3⟩ := scanStage3_snaps_due (some f) args
    (scanStage2 (some f) args (scanStage1 (some f) args roots))
  have hs1 : (scanStage1 (some f) args roots).snaps
      = [{ new_scan_stats with elapsed_seconds := args.clock 0 }] ++ l1 := by
    unfold scanStage1
    rw [hl1, maybe_progress_start_snap]
  have hc2 : (search_in_roots (some f) args roots).2.2
      = (scanFinal (some f) args (scanStage3 (some f) args (scanStage2 (some f) args
          (scanStage1 (some f) args roots)))).snaps := rfl
  have hc1 : (search_in_roots (some f) args roots).2.1
      = (scanFinal (some f) args (scanStage3 (some f) args (scanStage2 (some f) args
          (scanStage1 (some f) args roots)))).stats := rfl
  have hsnaps : (search_in_roots (some f) args roots).2.2
      = ([{ new_scan_stats with elapsed_seconds := args.clock 0 }] ++ l1 ++ l2 ++ l3)
        ++ [(search_in_roots (some f) args roots).2.1] := by
    rw [hc2, hc1, scanFinal_snaps, hl3, hl2, hs1]
  refine ⟨search_in_roots_cb_eq f g args roots, ?_, ?_, ?_⟩
  · rw [hsnaps]
    simp
  · rw [hsnaps, List.getLast?_concat]
  · rw [hsnaps]
    intro s hs
    rw [List.dropLast_concat] at hs
    simp only [List.append_assoc, List.singleton_append, List.mem_cons,
      List.mem_append] at hs
    rcases hs with (hs0 | h1) | (h2 | h3)
    · rw [hs0]
      simp [new_scan_stats]
    · exact hd1 s h1
    · exact hd2 s h2
    · exact hd3 s h3

end LogExplainer
